import Mathlib

/-!
Verification of the serialist value-graph serializer (src/serialize.ts,
src/deserialize.ts, src/index.ts) against its specification.

Modelling choices, stated once here:

* JavaScript object identity is modelled by an explicit heap: a mutable
  object is a `JSValue.vobj addr` reference into a `Heap` (an association
  list from addresses to `HObject`s).  `===` on objects is address
  equality; `===` on primitives is value equality.  This is the only way
  to represent the cyclic and shared graphs the library is built for.
* JavaScript numbers are modelled as `Int` (no claim concerns fractional
  or NaN behaviour).
* A `Date`'s wire payload is `source.toString()`, which renders at
  second resolution; we abstract that rendered string by its second
  count (an `Int`).  `new Date(s)` on such a string yields the timestamp
  `1000 * seconds`.  This keeps the essential, observable property of
  the real string round trip (milliseconds are dropped) without
  modelling calendar formatting.
* A `RegExp` is a (pattern, flags) pair; `toString()` is
  `"/" ++ pattern ++ "/" ++ flags` and `new RegExp(s)` has pattern `s`
  and empty flags, exactly as in the runtime for literal-derived
  patterns.
* A constructor function is identified by a numeric identity `cid`
  (reference identity of the function object) plus its `.name` string;
  `x instanceof C` holds iff `C`'s identity occurs in `x`'s prototype
  chain.  An object created by `Object.create(null)` has no
  `constructor` property (`ctor = none`) and an empty chain.
* The TypeScript encoder mutates the node objects stored in its
  visited-table (assigning `id` on revisit).  The pure rendering: the
  traversal produces a `PreSer` tree in which every compound node is
  tagged with its source address, the visited-table maps addresses to
  optionally-assigned ids, and a final `patch` pass substitutes each
  node's final id — exactly the value each mutated `id` field holds
  when the traversal finishes.  `Date` nodes are never pushed into the
  table, so `patch` always gives them `id = none`, as in the source.
* User-supplied hooks (custom serializer / deserializer, symbol and
  function hooks) are modelled as opaque Lean functions of the same
  shape as in the source, receiving the current table state and a
  re-entrant recurse callback.
* Recursive traversals take an explicit fuel argument; every theorem
  either uses a concrete fuel or assumes fuel exceeds the input's depth.
-/

namespace Serialist

/-- Identity and `.name` of a constructor function. -/
structure CtorRef where
  cid : Nat
  cname : String
deriving DecidableEq, Repr

/-- Immediate JavaScript values; mutable objects live behind `vobj`. -/
inductive JSValue where
  | vstr (s : String)
  | vnum (n : Int)
  | vbool (b : Bool)
  | vundef
  | vnull
  | vsym (name : String) (symId : Nat)
  | vfn (name : String) (fnId : Nat)
  | vobj (addr : Nat)
deriving DecidableEq, Repr

/-- Heap objects: the kinds of mutable values the library can meet. -/
inductive HObject where
  | dateObj (t : Int)
  | mapObj (entries : List (JSValue × JSValue))
  | setObj (elems : List JSValue)
  | regexpObj (pattern : String) (flags : String)
  | arrayObj (items : List JSValue)
  | objectObj (ctor : Option CtorRef) (protoChain : List Nat)
      (fields : List (String × JSValue))
deriving DecidableEq, Repr

abbrev Heap := List (Nat × HObject)

def hlookup (h : Heap) (a : Nat) : Option HObject :=
  match List.find? (fun p => p.1 == a) h with
  | some p => some p.2
  | none => none

/-- Overwrite the (first) binding of `a`; used for field-by-field
construction on the decode side. -/
def hset (h : Heap) (a : Nat) (o : HObject) : Heap :=
  match h with
  | [] => []
  | p :: rest => if p.1 == a then (a, o) :: rest else p :: hset rest a o

/-- The `CtorRef` of the base `Object` constructor (plain records). -/
def objectCtor : CtorRef := ⟨0, "Object"⟩

/-- `source.toString()` of a Date renders at second resolution; we keep
the rendered string abstracted as its second count. -/
def dateRenderSeconds (t : Int) : Int := Int.fdiv t 1000

/-- `new Date(renderedString).getTime()`. -/
def dateParseMs (s : Int) : Int := 1000 * s

/-- `"/" ++ pattern ++ "/" ++ flags`, the `RegExp.prototype.toString`. -/
def jsRegExpToString (p f : String) : String := "/" ++ p ++ "/" ++ f

/-- `s.slice(1, -1)`: drop the first and the last character. -/
def jsSlice1Neg1 (s : String) : String := String.mk (List.dropLast (s.data.drop 1))

/-- The tagged intermediate form (`Serialized` in index.ts), with the
per-class payloads of `IBuiltIn` split into constructors.  `α` is the
type of the id slot: during traversal the encoder carries the source
address there (`PreSer`); the finished form carries `Option Nat`
(`Ser`). -/
inductive SerNode (α : Type) where
  | sstr (s : String)
  | snum (n : Int)
  | sbool (b : Bool)
  | sundef
  | snull
  | ssym (value : String)
  | sfn (value : String)
  | sobject (value : List (String × SerNode α)) (tag : α)
  | sdate (value : Int) (tag : α)
  | smap (value : List (SerNode α × SerNode α)) (tag : α)
  | sset (value : List (SerNode α)) (tag : α)
  | sregexp (value : String) (tag : α)
  | sarray (items : List (SerNode α)) (tag : α)
  | sinstance (cls : String) (props : List (String × SerNode α)) (tag : α)
  | scustom (cls : String) (value : SerNode α) (tag : α)
  | sref (id : Nat)
deriving Repr

abbrev PreSer := SerNode Nat
abbrev Ser := SerNode (Option Nat)

/-- Errors: `jsError` is a thrown `new Error(msg)`; `jsTypeError` is a
runtime TypeError (property access on `undefined`); `modelStuck` marks
situations unreachable from well-formed inputs (dangling heap address,
fuel exhaustion). -/
inductive JSError where
  | jsError (msg : String)
  | jsTypeError (msg : String)
  | modelStuck (msg : String)
deriving DecidableEq, Repr

/-- Encoder state: the visited-table (`alreadySerialized`, keyed by
source identity, holding each entry's lazily assigned id) and the
factory-scoped id counter. -/
structure SerSt where
  visited : List (Nat × Option Nat)
  counter : Nat
deriving DecidableEq, Repr

/-- Decoder state: the output heap (freshly constructed objects), the
next fresh identity, and the instance-table (`alreadyDeserialized`,
each entry keeping its source node's optional id and its result). -/
structure DeSt where
  heap : Heap
  next : Nat
  table : List (Option Nat × JSValue)
deriving DecidableEq

/-- Type of a custom `serializer` hook: receives the source value, the
current table state, and a re-entrant serialize callback. -/
def SerHookT : Type :=
  JSValue → SerSt → (JSValue → SerSt → Except JSError (PreSer × SerSt)) →
    Except JSError (PreSer × SerSt)

/-- Type of a custom `deserializer` hook: receives the payload, the
whole source node, the current state, and a re-entrant callback. -/
def DeHookT : Type :=
  Ser → Ser → DeSt → (Ser → DeSt → Except JSError (JSValue × DeSt)) →
    Except JSError (JSValue × DeSt)

/-- `IConstructorAlias`: optional alias name, the constructor, and the
optional custom hooks. -/
structure RegEntry where
  name : Option String
  ctorId : Nat
  ctorName : String
  serializer : Option SerHookT
  deserializer : Option DeHookT

/-- `ISerializationOptions`. -/
structure SerOptions where
  serializeSymbol : Option (String → Nat → PreSer)
  serializeFunction : Option (String → Nat → PreSer)
  deserializeSymbol : Option (String → JSValue)
  deserializeFunction : Option (String → JSValue)

def noOptions : SerOptions := ⟨none, none, none, none⟩

/-! ### The classifier predicates of serialize.ts -/

def isPrimitiveType : JSValue → Bool
  | .vstr _ | .vnum _ | .vbool _ | .vundef | .vnull => true
  | _ => false

def isSymbol : JSValue → Bool
  | .vsym _ _ => true
  | _ => false

def isFunction : JSValue → Bool
  | .vfn _ _ => true
  | _ => false

/-- `source instanceof Date || Map || Set || RegExp`. -/
def isBuiltInType (h : Heap) : JSValue → Bool
  | .vobj a =>
    match hlookup h a with
    | some (.dateObj _) | some (.mapObj _) | some (.setObj _)
    | some (.regexpObj _ _) => true
    | _ => false
  | _ => false

/-- `Array.isArray(source)`. -/
def isArrayValue (h : Heap) : JSValue → Bool
  | .vobj a =>
    match hlookup h a with
    | some (.arrayObj _) => true
    | _ => false
  | _ => false

/-- `source && source.constructor && source.constructor.name === "Object"`.
Falsy values and values whose constructor is absent or differently
named (every primitive wrapper, Date, Map, Set, RegExp, Array, user
classes, null-prototype objects) fail this test. -/
def isObjectLiteral (h : Heap) : JSValue → Bool
  | .vobj a =>
    match hlookup h a with
    | some (.objectObj (some c) _ _) => c.cname == "Object"
    | _ => false
  | _ => false

/-- `typeof source === "object"` (true of `null` and of every object). -/
def typeofIsObject : JSValue → Bool
  | .vnull => true
  | .vobj _ => true
  | _ => false

/-- `!isObjectLiteral(source) && typeof source === "object"`. -/
def isInstance (h : Heap) (v : JSValue) : Bool :=
  !isObjectLiteral h v && typeofIsObject v

/-- The value kinds the classifier distinguishes. -/
inductive VKind where
  | primitiveK | symbolK | functionK | builtinK | arrayK | recordK
  | instanceK | unsupportedK
deriving DecidableEq, Repr

/-- The dispatch cascade of `doSerialize`, factored out: the same
predicates tested in the same order, first match winning. -/
def classify (h : Heap) (v : JSValue) : VKind :=
  if isPrimitiveType v then .primitiveK
  else if isSymbol v then .symbolK
  else if isFunction v then .functionK
  else if isBuiltInType h v then .builtinK
  else if isArrayValue h v then .arrayK
  else if isObjectLiteral h v then .recordK
  else if isInstance h v then .instanceK
  else .unsupportedK

/-! ### The encoder (serialize.ts) -/

/-- Primitives pass through unchanged (never entered into the table). -/
def primToSer {α : Type} : JSValue → SerNode α
  | .vstr s => .sstr s
  | .vnum n => .snum n
  | .vbool b => .sbool b
  | .vundef => .sundef
  | _ => .snull

/-- Assign id `i` to the first visited-table entry for address `a`
(the mutation `existing.result.id = nextIndex()`). -/
def assignFirst : List (Nat × Option Nat) → Nat → Nat → List (Nat × Option Nat)
  | [], _, _ => []
  | (b, o) :: rest, a, i =>
    if b == a then (b, some i) :: rest else (b, o) :: assignFirst rest a i

/-- `findAlreadySerialized`: look the identity up in the table; when
found, make sure the entry has an id (consuming the counter if not) and
return a reference node to it. -/
def findAlreadySerialized (a : Nat) (st : SerSt) :
    Option (PreSer × SerSt) :=
  match List.find? (fun p => p.1 == a) st.visited with
  | none => none
  | some (_, some i) => some (.sref i, st)
  | some (_, none) =>
    some (.sref st.counter,
      ⟨assignFirst st.visited a st.counter, st.counter + 1⟩)

/-- The `for (const key of keys)` loop of `serializeObjectLiteral` and
`serializeInstance`, abstracted over the recursive call. -/
def serializeFieldsWith
    (rec : JSValue → SerSt → Except JSError (PreSer × SerSt)) :
    List (String × JSValue) → SerSt →
      Except JSError (List (String × PreSer) × SerSt)
  | [], st => .ok ([], st)
  | (k, v) :: rest, st =>
    match rec v st with
    | .error e => .error e
    | .ok (n, st2) =>
      match serializeFieldsWith rec rest st2 with
      | .error e => .error e
      | .ok (ns, st3) => .ok ((k, n) :: ns, st3)

/-- The `for (const item of source)` loop of `serializeArray` (and the
Set branch), abstracted over the recursive call. -/
def serializeItemsWith
    (rec : JSValue → SerSt → Except JSError (PreSer × SerSt)) :
    List JSValue → SerSt → Except JSError (List PreSer × SerSt)
  | [], st => .ok ([], st)
  | v :: rest, st =>
    match rec v st with
    | .error e => .error e
    | .ok (n, st2) =>
      match serializeItemsWith rec rest st2 with
      | .error e => .error e
      | .ok (ns, st3) => .ok (n :: ns, st3)

/-- The `for (const entry of source.entries())` loop of the Map
branch (key first, then value), abstracted over the recursive call. -/
def serializePairsWith
    (rec : JSValue → SerSt → Except JSError (PreSer × SerSt)) :
    List (JSValue × JSValue) → SerSt →
      Except JSError (List (PreSer × PreSer) × SerSt)
  | [], st => .ok ([], st)
  | (k, v) :: rest, st =>
    match rec k st with
    | .error e => .error e
    | .ok (nk, st2) =>
      match rec v st2 with
      | .error e => .error e
      | .ok (nv, st3) =>
        match serializePairsWith rec rest st3 with
        | .error e => .error e
        | .ok (ns, st4) => .ok ((nk, nv) :: ns, st4)

/-- The emitted `class`: the registered alias name when present, else
`source.constructor.name` (a TypeError when `constructor` is absent). -/
def classNameFor (entry : RegEntry) (ctor : Option CtorRef) :
    Except JSError String :=
  match entry.name with
  | some n => .ok n
  | none =>
    match ctor with
    | some c => .ok c.cname
    | none => .error (.jsTypeError "Cannot read property name of undefined")

mutual

def doSerialize (reg : List RegEntry) (opts : SerOptions) (h : Heap) :
    Nat → JSValue → SerSt → Except JSError (PreSer × SerSt)
  | 0, _, _ => .error (.modelStuck "out of fuel")
  | fuel + 1, source, st =>
    match classify h source with
    | .primitiveK => .ok (primToSer source, st)
    | .symbolK =>
      match source with
      | .vsym nm sid =>
        match opts.serializeSymbol with
        | some hook => .ok (hook nm sid, st)
        -- source.toString().slice(7, -1) recovers the symbol's name
        | none => .ok (.ssym nm, st)
      | _ => .error (.modelStuck "classify said symbol")
    | .functionK =>
      match source with
      | .vfn nm fid =>
        match opts.serializeFunction with
        | some hook => .ok (hook nm fid, st)
        | none => .ok (.sfn nm, st)
      | _ => .error (.modelStuck "classify said function")
    | .builtinK =>
      match source with
      | .vobj a => serializeBuiltInType reg opts h fuel a st
      | _ => .error (.modelStuck "classify said builtin")
    | .arrayK =>
      match source with
      | .vobj a => serializeArray reg opts h fuel a st
      | _ => .error (.modelStuck "classify said array")
    | .recordK =>
      match source with
      | .vobj a => serializeObjectLiteral reg opts h fuel a st
      | _ => .error (.modelStuck "classify said record")
    | .instanceK =>
      match source with
      | .vobj a => serializeInstance reg opts h fuel a st
      | _ => .error (.modelStuck "classify said instance")
    | .unsupportedK => .error (.jsError "Cannot serialize value.")

/-- `serializeBuiltInType`.  Note the Date branch: it returns the node
without pushing the source into the visited-table. -/
def serializeBuiltInType (reg : List RegEntry) (opts : SerOptions)
    (h : Heap) : Nat → Nat → SerSt → Except JSError (PreSer × SerSt)
  | 0, _, _ => .error (.modelStuck "out of fuel")
  | fuel + 1, a, st =>
    match findAlreadySerialized a st with
    | some r => .ok r
    | none =>
      match hlookup h a with
      | some (.dateObj t) => .ok (.sdate (dateRenderSeconds t) a, st)
      | some (.mapObj entries) =>
        match serializePairsWith (fun v stx => doSerialize reg opts h fuel v stx)
            entries ⟨st.visited ++ [(a, none)], st.counter⟩ with
        | .error e => .error e
        | .ok (ns, st3) => .ok (.smap ns a, st3)
      | some (.setObj elems) =>
        match serializeItemsWith (fun v stx => doSerialize reg opts h fuel v stx)
            elems ⟨st.visited ++ [(a, none)], st.counter⟩ with
        | .error e => .error e
        | .ok (ns, st3) => .ok (.sset ns a, st3)
      | some (.regexpObj p f) =>
        -- source.toString().slice(1, -1); pushed after construction
        .ok (.sregexp (jsSlice1Neg1 (jsRegExpToString p f)) a,
          ⟨st.visited ++ [(a, none)], st.counter⟩)
      | some _ => .error (.jsError "Unknown builtin type.")
      | none => .error (.modelStuck "dangling address")

def serializeArray (reg : List RegEntry) (opts : SerOptions) (h : Heap) :
    Nat → Nat → SerSt → Except JSError (PreSer × SerSt)
  | 0, _, _ => .error (.modelStuck "out of fuel")
  | fuel + 1, a, st =>
    match findAlreadySerialized a st with
    | some r => .ok r
    | none =>
      match hlookup h a with
      | some (.arrayObj items) =>
        match serializeItemsWith (fun v stx => doSerialize reg opts h fuel v stx)
            items ⟨st.visited ++ [(a, none)], st.counter⟩ with
        | .error e => .error e
        | .ok (ns, st3) => .ok (.sarray ns a, st3)
      | _ => .error (.modelStuck "non-array address in serializeArray")

def serializeObjectLiteral (reg : List RegEntry) (opts : SerOptions)
    (h : Heap) : Nat → Nat → SerSt → Except JSError (PreSer × SerSt)
  | 0, _, _ => .error (.modelStuck "out of fuel")
  | fuel + 1, a, st =>
    match findAlreadySerialized a st with
    | some r => .ok r
    | none =>
      match hlookup h a with
      | some (.objectObj _ _ fields) =>
        match serializeFieldsWith (fun v stx => doSerialize reg opts h fuel v stx)
            fields ⟨st.visited ++ [(a, none)], st.counter⟩ with
        | .error e => .error e
        | .ok (kvs, st3) => .ok (.sobject kvs a, st3)
      | _ => .error (.modelStuck "non-record address in serializeObjectLiteral")

/-- `serializeInstance`: the registry entry is selected by
`constructors.find(c => source instanceof c.ctor)`; the error branch
interpolates `source.constructor.name`. -/
def serializeInstance (reg : List RegEntry) (opts : SerOptions)
    (h : Heap) : Nat → Nat → SerSt → Except JSError (PreSer × SerSt)
  | 0, _, _ => .error (.modelStuck "out of fuel")
  | fuel + 1, a, st =>
    match findAlreadySerialized a st with
    | some r => .ok r
    | none =>
      match hlookup h a with
      | some (.objectObj ctor chain fields) =>
        match List.find? (fun e => chain.contains e.ctorId) reg with
        | some entry =>
          match classNameFor entry ctor with
          | .error e => .error e
          | .ok cls =>
            match entry.serializer with
            | some hook =>
              match hook (.vobj a) ⟨st.visited ++ [(a, none)], st.counter⟩
                  (fun src stx => doSerialize reg opts h fuel src stx) with
              | .error e => .error e
              | .ok (payload, st3) => .ok (.scustom cls payload a, st3)
            | none =>
              match serializeFieldsWith
                  (fun v stx => doSerialize reg opts h fuel v stx)
                  fields ⟨st.visited ++ [(a, none)], st.counter⟩ with
              | .error e => .error e
              | .ok (kvs, st3) => .ok (.sinstance cls kvs a, st3)
        | none =>
          match ctor with
          | some c =>
            .error (.jsError ("Cannot serialize object with constructor " ++
              c.cname ++ ". Specify a custom serialize function to handle this type."))
          | none => .error (.jsTypeError "Cannot read property name of undefined")
      | _ => .error (.modelStuck "non-object address in serializeInstance")

end

/-- The final id each node carries: the visited-table's final
assignment for the node's source address (none for nodes never pushed
or never revisited). -/
def assignedIdOf (vis : List (Nat × Option Nat)) (a : Nat) : Option Nat :=
  match List.find? (fun p => p.1 == a) vis with
  | some (_, i) => i
  | none => none

mutual

def patch (f : Nat → Option Nat) : SerNode Nat → SerNode (Option Nat)
  | .sstr s => .sstr s
  | .snum n => .snum n
  | .sbool b => .sbool b
  | .sundef => .sundef
  | .snull => .snull
  | .ssym v => .ssym v
  | .sfn v => .sfn v
  | .sobject kvs tag => .sobject (patchFields f kvs) (f tag)
  | .sdate v tag => .sdate v (f tag)
  | .smap kvs tag => .smap (patchPairs f kvs) (f tag)
  | .sset xs tag => .sset (patchList f xs) (f tag)
  | .sregexp v tag => .sregexp v (f tag)
  | .sarray xs tag => .sarray (patchList f xs) (f tag)
  | .sinstance cls kvs tag => .sinstance cls (patchFields f kvs) (f tag)
  | .scustom cls payload tag => .scustom cls (patch f payload) (f tag)
  | .sref i => .sref i

def patchFields (f : Nat → Option Nat) :
    List (String × SerNode Nat) → List (String × SerNode (Option Nat))
  | [] => []
  | (k, v) :: rest => (k, patch f v) :: patchFields f rest

def patchPairs (f : Nat → Option Nat) :
    List (SerNode Nat × SerNode Nat) →
      List (SerNode (Option Nat) × SerNode (Option Nat))
  | [] => []
  | (k, v) :: rest => (patch f k, patch f v) :: patchPairs f rest

def patchList (f : Nat → Option Nat) :
    List (SerNode Nat) → List (SerNode (Option Nat))
  | [] => []
  | x :: rest => patch f x :: patchList f rest

end

/-- One top-level `serialize(source)` call of a serializer instance.
The visited-table starts empty (`doSerialize(source, [])`), but the id
counter belongs to the factory closure and is carried across calls:
it enters as `counter` and the final value is returned. -/
def serializeCall (reg : List RegEntry) (opts : SerOptions) (h : Heap)
    (fuel : Nat) (counter : Nat) (source : JSValue) :
    Except JSError (Ser × Nat) :=
  match doSerialize reg opts h fuel source ⟨[], counter⟩ with
  | .error e => .error e
  | .ok (pre, st) => .ok (patch (assignedIdOf st.visited) pre, st.counter)

/-! ### The decoder (deserialize.ts) -/

/-- `===` between decoded values (SameValue on our value domain:
primitives by value, symbols and objects by identity). -/
def jsStrictEq (x y : JSValue) : Bool := x == y

/-- `Map.prototype.set`: overwrite the first entry whose key is
`===`-equal, else append. -/
def jsMapSet : List (JSValue × JSValue) → JSValue → JSValue →
    List (JSValue × JSValue)
  | [], k, v => [(k, v)]
  | (k0, v0) :: rest, k, v =>
    if jsStrictEq k0 k then (k0, v) :: rest
    else (k0, v0) :: jsMapSet rest k v

/-- `Set.prototype.add`. -/
def jsSetAdd (elems : List JSValue) (v : JSValue) : List JSValue :=
  if elems.any (fun x => jsStrictEq x v) then elems else elems ++ [v]

/-- `result[key] = val` on a plain object: overwrite in place, else
append in insertion order. -/
def jsFieldSet : List (String × JSValue) → String → JSValue →
    List (String × JSValue)
  | [], k, v => [(k, v)]
  | (k0, v0) :: rest, k, v =>
    if k0 == k then (k0, v) :: rest else (k0, v0) :: jsFieldSet rest k v

/-- Allocate a fresh object. -/
def allocD (o : HObject) (st : DeSt) : Nat × DeSt :=
  (st.next, ⟨st.heap ++ [(st.next, o)], st.next + 1, st.table⟩)

def mapSetAt (a : Nat) (k v : JSValue) (st : DeSt) : DeSt :=
  match hlookup st.heap a with
  | some (.mapObj en) => ⟨hset st.heap a (.mapObj (jsMapSet en k v)), st.next, st.table⟩
  | _ => st

def setAddAt (a : Nat) (v : JSValue) (st : DeSt) : DeSt :=
  match hlookup st.heap a with
  | some (.setObj xs) => ⟨hset st.heap a (.setObj (jsSetAdd xs v)), st.next, st.table⟩
  | _ => st

def arrayPushAt (a : Nat) (v : JSValue) (st : DeSt) : DeSt :=
  match hlookup st.heap a with
  | some (.arrayObj xs) => ⟨hset st.heap a (.arrayObj (xs ++ [v])), st.next, st.table⟩
  | _ => st

def fieldSetAt (a : Nat) (k : String) (v : JSValue) (st : DeSt) : DeSt :=
  match hlookup st.heap a with
  | some (.objectObj c ch fs) =>
    ⟨hset st.heap a (.objectObj c ch (jsFieldSet fs k v)), st.next, st.table⟩
  | _ => st

/-- `deserializeReference`: `alreadyDeserialized.find(i => i.source.id
=== source.id)`; an entry whose source has no id never matches a
numeric id. -/
def deserializeReference (i : Nat) (st : DeSt) :
    Except JSError (JSValue × DeSt) :=
  match List.find? (fun p => p.1 == some i) st.table with
  | some p => .ok (p.2, st)
  | none =>
    .error (.jsError ("Cannot find reference with id " ++ toString i ++ "."))

/-- The `for ... of source.value` loop of the Map branch of
`deserializeBuiltInType` (`result.set(decode key, decode val)`),
abstracted over the recursive call. -/
def deserializeMapEntriesWith
    (rec : Ser → DeSt → Except JSError (JSValue × DeSt)) (a : Nat) :
    List (Ser × Ser) → DeSt → Except JSError DeSt
  | [], st => .ok st
  | (k, v) :: rest, st =>
    match rec k st with
    | .error e => .error e
    | .ok (dk, st2) =>
      match rec v st2 with
      | .error e => .error e
      | .ok (dv, st3) =>
        deserializeMapEntriesWith rec a rest (mapSetAt a dk dv st3)

/-- The Set branch's loop (`result.add(decode entry)`). -/
def deserializeSetElemsWith
    (rec : Ser → DeSt → Except JSError (JSValue × DeSt)) (a : Nat) :
    List Ser → DeSt → Except JSError DeSt
  | [], st => .ok st
  | v :: rest, st =>
    match rec v st with
    | .error e => .error e
    | .ok (dv, st2) => deserializeSetElemsWith rec a rest (setAddAt a dv st2)

/-- The `deserializeArray` loop (`result.push(decode item)`). -/
def deserializeArrayItemsWith
    (rec : Ser → DeSt → Except JSError (JSValue × DeSt)) (a : Nat) :
    List Ser → DeSt → Except JSError DeSt
  | [], st => .ok st
  | v :: rest, st =>
    match rec v st with
    | .error e => .error e
    | .ok (dv, st2) => deserializeArrayItemsWith rec a rest (arrayPushAt a dv st2)

/-- The `result[key] = decode val` loop of `deserializeObjectLiteral`
and `deserializeInstance`. -/
def deserializeFieldsWith
    (rec : Ser → DeSt → Except JSError (JSValue × DeSt)) (a : Nat) :
    List (String × Ser) → DeSt → Except JSError DeSt
  | [], st => .ok st
  | (k, v) :: rest, st =>
    match rec v st with
    | .error e => .error e
    | .ok (dv, st2) => deserializeFieldsWith rec a rest (fieldSetAt a k dv st2)

mutual

def doDeserialize (reg : List RegEntry) (opts : SerOptions) :
    Nat → Ser → DeSt → Except JSError (JSValue × DeSt)
  | 0, _, _ => .error (.modelStuck "out of fuel")
  | fuel + 1, source, st =>
    -- the cascade of type guards in doDeserialize, written as the
    -- equivalent match on the closed tagged union
    match source with
    | .sstr s => .ok (.vstr s, st)
    | .snum n => .ok (.vnum n, st)
    | .sbool b => .ok (.vbool b, st)
    | .sundef => .ok (.vundef, st)
    | .snull => .ok (.vnull, st)
    | .ssym v =>
      match opts.deserializeSymbol with
      | some hook => .ok (hook v, st)
      -- Symbol(source.value): a fresh identity bearing the stored name
      | none => .ok (.vsym v st.next, ⟨st.heap, st.next + 1, st.table⟩)
    | .sfn v =>
      match opts.deserializeFunction with
      | some hook => .ok (hook v, st)
      -- no hook: `source.value` itself — the stored name string
      | none => .ok (.vstr v, st)
    | .sdate v tag => deserializeBuiltInType reg opts fuel (.sdate v tag) st
    | .smap v tag => deserializeBuiltInType reg opts fuel (.smap v tag) st
    | .sset v tag => deserializeBuiltInType reg opts fuel (.sset v tag) st
    | .sregexp v tag => deserializeBuiltInType reg opts fuel (.sregexp v tag) st
    | .sarray items tag => deserializeArray reg opts fuel items tag st
    | .sobject kvs tag => deserializeObjectLiteral reg opts fuel kvs tag st
    | .scustom cls payload tag =>
      deserializeCustomSerializedObject reg opts fuel cls payload tag st
    | .sinstance cls props tag =>
      deserializeInstance reg opts fuel cls props tag st
    | .sref i => deserializeReference i st

def deserializeBuiltInType (reg : List RegEntry) (opts : SerOptions) :
    Nat → Ser → DeSt → Except JSError (JSValue × DeSt)
  | 0, _, _ => .error (.modelStuck "out of fuel")
  | fuel + 1, source, st =>
    match source with
    | .sdate v _ =>
      -- new Date(source.value); NOT pushed into the instance-table
      let (a, st2) := allocD (.dateObj (dateParseMs v)) st
      .ok (.vobj a, st2)
    | .smap entries tag =>
      let (a, st2) := allocD (.mapObj []) st
      match deserializeMapEntriesWith
          (fun src stx => doDeserialize reg opts fuel src stx) a entries
          ⟨st2.heap, st2.next, st2.table ++ [(tag, .vobj a)]⟩ with
      | .error e => .error e
      | .ok st4 => .ok (.vobj a, st4)
    | .sset elems tag =>
      let (a, st2) := allocD (.setObj []) st
      match deserializeSetElemsWith
          (fun src stx => doDeserialize reg opts fuel src stx) a elems
          ⟨st2.heap, st2.next, st2.table ++ [(tag, .vobj a)]⟩ with
      | .error e => .error e
      | .ok st4 => .ok (.vobj a, st4)
    | .sregexp v tag =>
      -- new RegExp(source.value): pattern from the wire, empty flags
      let (a, st2) := allocD (.regexpObj v "") st
      .ok (.vobj a, ⟨st2.heap, st2.next, st2.table ++ [(tag, .vobj a)]⟩)
    | _ => .error (.jsError "Unknown special type.")

def deserializeArray (reg : List RegEntry) (opts : SerOptions) :
    Nat → List Ser → Option Nat → DeSt → Except JSError (JSValue × DeSt)
  | 0, _, _, _ => .error (.modelStuck "out of fuel")
  | fuel + 1, items, tag, st =>
    let (a, st2) := allocD (.arrayObj []) st
    match deserializeArrayItemsWith
        (fun src stx => doDeserialize reg opts fuel src stx) a items
        ⟨st2.heap, st2.next, st2.table ++ [(tag, .vobj a)]⟩ with
    | .error e => .error e
    | .ok st4 => .ok (.vobj a, st4)

def deserializeObjectLiteral (reg : List RegEntry) (opts : SerOptions) :
    Nat → List (String × Ser) → Option Nat → DeSt →
      Except JSError (JSValue × DeSt)
  | 0, _, _, _ => .error (.modelStuck "out of fuel")
  | fuel + 1, kvs, tag, st =>
    let (a, st2) := allocD (.objectObj (some objectCtor) [objectCtor.cid] []) st
    match deserializeFieldsWith
        (fun src stx => doDeserialize reg opts fuel src stx) a kvs
        ⟨st2.heap, st2.next, st2.table ++ [(tag, .vobj a)]⟩ with
    | .error e => .error e
    | .ok st4 => .ok (.vobj a, st4)

/-- `deserializeInstance`: the registry entry is matched by
`source.class === c.name || source.class === c.ctor.name`.  When no
entry matches the function falls through and returns `undefined`. -/
def deserializeInstance (reg : List RegEntry) (opts : SerOptions) :
    Nat → String → List (String × Ser) → Option Nat → DeSt →
      Except JSError (JSValue × DeSt)
  | 0, _, _, _, _ => .error (.modelStuck "out of fuel")
  | fuel + 1, cls, props, tag, st =>
    match List.find? (fun e => e.name == some cls || e.ctorName == cls) reg with
    | some entry =>
      -- new customCtor.ctor(): a zero-argument construction
      let (a, st2) := allocD (.objectObj (some ⟨entry.ctorId, entry.ctorName⟩)
        [entry.ctorId] []) st
      match deserializeFieldsWith
          (fun src stx => doDeserialize reg opts fuel src stx) a props
          ⟨st2.heap, st2.next, st2.table ++ [(tag, .vobj a)]⟩ with
      | .error e => .error e
      | .ok st4 => .ok (.vobj a, st4)
    | none => .ok (.vundef, st)

/-- `deserializeCustomSerializedObject`: the same name-based lookup;
the hook is invoked when both the entry and its deserializer exist,
else the one missing-deserializer exception fires (also when no entry
matches at all; the quotes of the original message are elided). -/
def deserializeCustomSerializedObject (reg : List RegEntry)
    (opts : SerOptions) :
    Nat → String → Ser → Option Nat → DeSt →
      Except JSError (JSValue × DeSt)
  | 0, _, _, _, _ => .error (.modelStuck "out of fuel")
  | fuel + 1, cls, payload, tag, st =>
    match List.find? (fun e => e.name == some cls || e.ctorName == cls) reg with
    | some entry =>
      match entry.deserializer with
      | some hook =>
        hook payload (.scustom cls payload tag) st
          (fun src stx => doDeserialize reg opts fuel src stx)
      | none =>
        .error (.jsError ("Missing deserializer for custom deserialized object of type custom and ctor " ++ cls ++ "."))
    | none =>
      .error (.jsError ("Missing deserializer for custom deserialized object of type custom and ctor " ++ cls ++ "."))

end

/-- One top-level `deserialize(source)` call: every table is created
fresh (`doDeserialize(source, [])`). -/
def deserializeCall (reg : List RegEntry) (opts : SerOptions)
    (fuel : Nat) (source : Ser) : Except JSError (JSValue × DeSt) :=
  doDeserialize reg opts fuel source ⟨[], 0, []⟩

/-! ### Plain-value trees

`PV` is the grammar of the round-trip claim: values built only from
primitives, plain records, arrays, and the four recognized built-ins,
with no sharing between positions.  `pvVal`/`pvHeap` lay such a tree
out in a heap, allocating addresses in depth-first pre-order starting
at a base address — the same order in which both the encoder pushes
visited-table entries and the decoder allocates fresh objects. -/

inductive PV where
  | pstr (s : String)
  | pnum (n : Int)
  | pbool (b : Bool)
  | pundef
  | pnull
  | pdate (t : Int)
  | pmap (entries : List (PV × PV))
  | pset (elems : List PV)
  | pregexp (pattern : String) (flags : String)
  | parray (items : List PV)
  | precord (fields : List (String × PV))

mutual

/-- Number of heap objects a tree allocates. -/
def pvCount : PV → Nat
  | .pstr _ | .pnum _ | .pbool _ | .pundef | .pnull => 0
  | .pdate _ => 1
  | .pregexp _ _ => 1
  | .pmap es => 1 + pvCountPairs es
  | .pset xs => 1 + pvCountList xs
  | .parray xs => 1 + pvCountList xs
  | .precord fs => 1 + pvCountFields fs

def pvCountPairs : List (PV × PV) → Nat
  | [] => 0
  | (k, v) :: rest => pvCount k + pvCount v + pvCountPairs rest

def pvCountList : List PV → Nat
  | [] => 0
  | x :: rest => pvCount x + pvCountList rest

def pvCountFields : List (String × PV) → Nat
  | [] => 0
  | (_, v) :: rest => pvCount v + pvCountFields rest

end

/-- The value of a tree laid out at base address `n`. -/
def pvVal : PV → Nat → JSValue
  | .pstr s, _ => .vstr s
  | .pnum n, _ => .vnum n
  | .pbool b, _ => .vbool b
  | .pundef, _ => .vundef
  | .pnull, _ => .vnull
  | _, n => .vobj n

def pvPairsVals : List (PV × PV) → Nat → List (JSValue × JSValue)
  | [], _ => []
  | (k, v) :: rest, n =>
    (pvVal k n, pvVal v (n + pvCount k)) ::
      pvPairsVals rest (n + pvCount k + pvCount v)

def pvListVals : List PV → Nat → List JSValue
  | [], _ => []
  | x :: rest, n => pvVal x n :: pvListVals rest (n + pvCount x)

def pvFieldsVals : List (String × PV) → Nat → List (String × JSValue)
  | [], _ => []
  | (k, v) :: rest, n => (k, pvVal v n) :: pvFieldsVals rest (n + pvCount v)

mutual

/-- The heap segment of a tree laid out at base address `n`: its
addresses are exactly `[n, n + pvCount pv)`. -/
def pvHeap : PV → Nat → Heap
  | .pstr _, _ | .pnum _, _ | .pbool _, _ | .pundef, _ | .pnull, _ => []
  | .pdate t, n => [(n, .dateObj t)]
  | .pregexp p f, n => [(n, .regexpObj p f)]
  | .pmap es, n => (n, .mapObj (pvPairsVals es (n + 1))) :: pvPairsHeap es (n + 1)
  | .pset xs, n => (n, .setObj (pvListVals xs (n + 1))) :: pvListHeap xs (n + 1)
  | .parray xs, n => (n, .arrayObj (pvListVals xs (n + 1))) :: pvListHeap xs (n + 1)
  | .precord fs, n =>
    (n, .objectObj (some objectCtor) [objectCtor.cid] (pvFieldsVals fs (n + 1))) ::
      pvFieldsHeap fs (n + 1)

def pvPairsHeap : List (PV × PV) → Nat → Heap
  | [], _ => []
  | (k, v) :: rest, n =>
    pvHeap k n ++ pvHeap v (n + pvCount k) ++
      pvPairsHeap rest (n + pvCount k + pvCount v)

def pvListHeap : List PV → Nat → Heap
  | [], _ => []
  | x :: rest, n => pvHeap x n ++ pvListHeap rest (n + pvCount x)

def pvFieldsHeap : List (String × PV) → Nat → Heap
  | [], _ => []
  | (_, v) :: rest, n => pvHeap v n ++ pvFieldsHeap rest (n + pvCount v)

end

mutual

/-- A fuel amount sufficient to traverse the tree (the model consumes
one fuel entering `doSerialize`/`doDeserialize` and one entering the
per-kind helper). -/
def pvFuel : PV → Nat
  | .pstr _ | .pnum _ | .pbool _ | .pundef | .pnull => 1
  | .pdate _ => 2
  | .pregexp _ _ => 2
  | .pmap es => 2 + pvFuelPairs es
  | .pset xs => 2 + pvFuelList xs
  | .parray xs => 2 + pvFuelList xs
  | .precord fs => 2 + pvFuelFields fs

def pvFuelPairs : List (PV × PV) → Nat
  | [] => 1
  | (k, v) :: rest => max (max (pvFuel k) (pvFuel v)) (pvFuelPairs rest)

def pvFuelList : List PV → Nat
  | [] => 1
  | x :: rest => max (pvFuel x) (pvFuelList rest)

def pvFuelFields : List (String × PV) → Nat
  | [] => 1
  | (_, v) :: rest => max (pvFuel v) (pvFuelFields rest)

end

/-- Trees whose laid-out value has a shareable identity that the
visited-table tracks: every compound kind except `Date` (the Date
branch never pushes) and except primitives (no identity). -/
def pvShareable : PV → Bool
  | .pmap _ | .pset _ | .parray _ | .precord _ | .pregexp _ _ => true
  | _ => false

mutual

/-- The node the encoder's traversal produces for a tree laid out at
base `n`, before the final id pass (tags are source addresses). -/
def preSerTree : PV → Nat → PreSer
  | .pstr s, _ => .sstr s
  | .pnum n, _ => .snum n
  | .pbool b, _ => .sbool b
  | .pundef, _ => .sundef
  | .pnull, _ => .snull
  | .pdate t, n => .sdate (dateRenderSeconds t) n
  | .pregexp p f, n => .sregexp (jsSlice1Neg1 (jsRegExpToString p f)) n
  | .pmap es, n => .smap (preSerTreePairs es (n + 1)) n
  | .pset xs, n => .sset (preSerTreeList xs (n + 1)) n
  | .parray xs, n => .sarray (preSerTreeList xs (n + 1)) n
  | .precord fs, n => .sobject (preSerTreeFields fs (n + 1)) n

def preSerTreePairs : List (PV × PV) → Nat → List (PreSer × PreSer)
  | [], _ => []
  | (k, v) :: rest, n =>
    (preSerTree k n, preSerTree v (n + pvCount k)) ::
      preSerTreePairs rest (n + pvCount k + pvCount v)

def preSerTreeList : List PV → Nat → List PreSer
  | [], _ => []
  | x :: rest, n => preSerTree x n :: preSerTreeList rest (n + pvCount x)

def preSerTreeFields : List (String × PV) → Nat → List (String × PreSer)
  | [], _ => []
  | (k, v) :: rest, n => (k, preSerTree v n) :: preSerTreeFields rest (n + pvCount v)

end

mutual

/-- The finished serialized form of an unshared tree: no node is ever
revisited, so every id is `none`. -/
def serTree : PV → Ser
  | .pstr s => .sstr s
  | .pnum n => .snum n
  | .pbool b => .sbool b
  | .pundef => .sundef
  | .pnull => .snull
  | .pdate t => .sdate (dateRenderSeconds t) none
  | .pregexp p f => .sregexp (jsSlice1Neg1 (jsRegExpToString p f)) none
  | .pmap es => .smap (serTreePairs es) none
  | .pset xs => .sset (serTreeList xs) none
  | .parray xs => .sarray (serTreeList xs) none
  | .precord fs => .sobject (serTreeFields fs) none

def serTreePairs : List (PV × PV) → List (Ser × Ser)
  | [] => []
  | (k, v) :: rest => (serTree k, serTree v) :: serTreePairs rest

def serTreeList : List PV → List Ser
  | [] => []
  | x :: rest => serTree x :: serTreeList rest

def serTreeFields : List (String × PV) → List (String × Ser)
  | [] => []
  | (k, v) :: rest => (k, serTree v) :: serTreeFields rest

end

mutual

/-- The visited-table entries the encoder pushes while traversing an
unshared tree, in order: pre-order, self before children, `Date`s
excluded (the Date branch never pushes). -/
def pushedEntries : PV → Nat → List (Nat × Option Nat)
  | .pstr _, _ | .pnum _, _ | .pbool _, _ | .pundef, _ | .pnull, _ => []
  | .pdate _, _ => []
  | .pregexp _ _, n => [(n, none)]
  | .pmap es, n => (n, none) :: pushedPairs es (n + 1)
  | .pset xs, n => (n, none) :: pushedList xs (n + 1)
  | .parray xs, n => (n, none) :: pushedList xs (n + 1)
  | .precord fs, n => (n, none) :: pushedFields fs (n + 1)

def pushedPairs : List (PV × PV) → Nat → List (Nat × Option Nat)
  | [], _ => []
  | (k, v) :: rest, n =>
    pushedEntries k n ++ pushedEntries v (n + pvCount k) ++
      pushedPairs rest (n + pvCount k + pvCount v)

def pushedList : List PV → Nat → List (Nat × Option Nat)
  | [], _ => []
  | x :: rest, n => pushedEntries x n ++ pushedList rest (n + pvCount x)

def pushedFields : List (String × PV) → Nat → List (Nat × Option Nat)
  | [], _ => []
  | (_, v) :: rest, n => pushedEntries v n ++ pushedFields rest (n + pvCount v)

end

mutual

/-- The instance-table entries the decoder pushes while reconstructing
a tree whose root node carries id `r` (children carry none); `Date`
nodes are not pushed. -/
def decEntries : PV → Option Nat → Nat → List (Option Nat × JSValue)
  | .pstr _, _, _ | .pnum _, _, _ | .pbool _, _, _ | .pundef, _, _
  | .pnull, _, _ => []
  | .pdate _, _, _ => []
  | .pregexp _ _, r, n => [(r, .vobj n)]
  | .pmap es, r, n => (r, .vobj n) :: decEntriesPairs es (n + 1)
  | .pset xs, r, n => (r, .vobj n) :: decEntriesList xs (n + 1)
  | .parray xs, r, n => (r, .vobj n) :: decEntriesList xs (n + 1)
  | .precord fs, r, n => (r, .vobj n) :: decEntriesFields fs (n + 1)

def decEntriesPairs : List (PV × PV) → Nat → List (Option Nat × JSValue)
  | [], _ => []
  | (k, v) :: rest, n =>
    decEntries k none n ++ decEntries v none (n + pvCount k) ++
      decEntriesPairs rest (n + pvCount k + pvCount v)

def decEntriesList : List PV → Nat → List (Option Nat × JSValue)
  | [], _ => []
  | x :: rest, n => decEntries x none n ++ decEntriesList rest (n + pvCount x)

def decEntriesFields : List (String × PV) → Nat → List (Option Nat × JSValue)
  | [], _ => []
  | (_, v) :: rest, n => decEntries v none n ++ decEntriesFields rest (n + pvCount v)

end

/-- Override the id slot of the root node (untagged nodes unchanged). -/
def setRootTag (r : Option Nat) : Ser → Ser
  | .sobject kvs _ => .sobject kvs r
  | .sdate v _ => .sdate v r
  | .smap kvs _ => .smap kvs r
  | .sset xs _ => .sset xs r
  | .sregexp v _ => .sregexp v r
  | .sarray xs _ => .sarray xs r
  | .sinstance cls kvs _ => .sinstance cls kvs r
  | .scustom cls p _ => .scustom cls p r
  | n => n

/-- The `===`-relevant content of a primitive tree (none for compound
trees, whose laid-out values are distinct fresh addresses). -/
def primKey : PV → Option JSValue
  | .pstr s => some (.vstr s)
  | .pnum n => some (.vnum n)
  | .pbool b => some (.vbool b)
  | .pundef => some .vundef
  | .pnull => some .vnull
  | _ => none

/-- No two positions hold `===`-equal primitives (a laid-out list then
has pairwise `===`-distinct values, as a real `Map`'s keys or a real
`Set`'s elements do). -/
def keysDisjoint : List PV → Bool
  | [] => true
  | k :: rest =>
    (match primKey k with
     | none => true
     | some kv => rest.all (fun k2 => !(primKey k2 == some kv))) &&
      keysDisjoint rest

def nodupStr : List String → Bool
  | [] => true
  | k :: rest => !(rest.contains k) && nodupStr rest

mutual

/-- Trees on which the round trip is exact: every `Date` has a
whole-second timestamp (the wire string renders seconds), every
`RegExp` is flag-free (`toString().slice(1,-1)` corrupts flags), map
keys / set elements are `===`-distinct and record field names unique
(as in any value a real runtime produces). -/
def plainB : PV → Bool
  | .pstr _ | .pnum _ | .pbool _ | .pundef | .pnull => true
  | .pdate t => t % 1000 == 0
  | .pregexp _ f => f == ""
  | .pmap es => keysDisjoint (es.map (fun p => p.1)) && plainPairs es
  | .pset xs => keysDisjoint xs && plainList xs
  | .parray xs => plainList xs
  | .precord fs => nodupStr (fs.map (fun p => p.1)) && plainFields fs

def plainPairs : List (PV × PV) → Bool
  | [] => true
  | (k, v) :: rest => plainB k && plainB v && plainPairs rest

def plainList : List PV → Bool
  | [] => true
  | x :: rest => plainB x && plainList rest

def plainFields : List (String × PV) → Bool
  | [] => true
  | (_, v) :: rest => plainB v && plainFields rest

end

/-- All object references in a value point below `m`. -/
def valBelow (m : Nat) : JSValue → Bool
  | .vobj a => a < m
  | _ => true

/-- Heap agreement on an address interval. -/
def heapAgree (bigH subH : Heap) (lo hi : Nat) : Prop :=
  ∀ a, lo ≤ a → a < hi → hlookup bigH a = hlookup subH a

mutual

/-- Fuel-indexed deep (structural) equality between two heap-resident
values, the formal reading of the spec's "deeply equal": primitives by
value, symbols and functions by identity, containers recursively,
regexps by pattern and flags, dates by timestamp. -/
def deepEqB (h1 h2 : Heap) : Nat → JSValue → JSValue → Bool
  | 0, _, _ => false
  | fuel + 1, .vobj a, .vobj b =>
    match hlookup h1 a, hlookup h2 b with
    | some (.dateObj t1), some (.dateObj t2) => t1 == t2
    | some (.regexpObj p1 f1), some (.regexpObj p2 f2) => p1 == p2 && f1 == f2
    | some (.mapObj e1), some (.mapObj e2) => deepEqPairsB h1 h2 fuel e1 e2
    | some (.setObj x1), some (.setObj x2) => deepEqListB h1 h2 fuel x1 x2
    | some (.arrayObj x1), some (.arrayObj x2) => deepEqListB h1 h2 fuel x1 x2
    | some (.objectObj c1 _ f1), some (.objectObj c2 _ f2) =>
      c1 == c2 && deepEqFieldsB h1 h2 fuel f1 f2
    | _, _ => false
  | _ + 1, x, y => x == y

def deepEqPairsB (h1 h2 : Heap) :
    Nat → List (JSValue × JSValue) → List (JSValue × JSValue) → Bool
  | _, [], [] => true
  | fuel, (k1, v1) :: r1, (k2, v2) :: r2 =>
    deepEqB h1 h2 fuel k1 k2 && deepEqB h1 h2 fuel v1 v2 &&
      deepEqPairsB h1 h2 fuel r1 r2
  | _, _, _ => false

def deepEqListB (h1 h2 : Heap) : Nat → List JSValue → List JSValue → Bool
  | _, [], [] => true
  | fuel, x :: r1, y :: r2 =>
    deepEqB h1 h2 fuel x y && deepEqListB h1 h2 fuel r1 r2
  | _, _, _ => false

def deepEqFieldsB (h1 h2 : Heap) :
    Nat → List (String × JSValue) → List (String × JSValue) → Bool
  | _, [], [] => true
  | fuel, (k1, v1) :: r1, (k2, v2) :: r2 =>
    k1 == k2 && deepEqB h1 h2 fuel v1 v2 && deepEqFieldsB h1 h2 fuel r1 r2
  | _, _, _ => false

end

/-! ### Reference definitions taken from the specification's words -/

/-- Refinement reference for C4, following the claim's words: select
the registry entry whose alias-name or intrinsic constructor name
equals the value's runtime type name (alias first).  The code instead
selects by `instanceof`; the C4 theorems compare the two. -/
def specNameSelect (reg : List RegEntry) (runtimeName : String) :
    Option RegEntry :=
  List.find? (fun e => e.name == some runtimeName || e.ctorName == runtimeName) reg

/-- The classifier's tests paired with the kinds they select, in the
priority order of the `doSerialize` cascade. -/
def classifierTests (h : Heap) : List ((JSValue → Bool) × VKind) :=
  [(isPrimitiveType, .primitiveK), (isSymbol, .symbolK),
   (isFunction, .functionK), (isBuiltInType h, .builtinK),
   (isArrayValue h, .arrayK), (isObjectLiteral h, .recordK),
   (isInstance h, .instanceK)]

/-- First-match evaluation of an ordered test list. -/
def firstMatch (ps : List ((JSValue → Bool) × VKind)) (v : JSValue) :
    Option VKind :=
  match ps with
  | [] => none
  | (p, k) :: rest => if p v then some k else firstMatch rest v

/-! ### Concrete values used by several claims -/

/-- The spec's running example: `{x:10, y:20}` whose `circular` field
points to the record itself. -/
def circularRecordHeap : Heap :=
  [(0, .objectObj (some objectCtor) [objectCtor.cid]
    [("x", .vnum 10), ("y", .vnum 20), ("circular", .vobj 0)])]

/-- A heap holding `/a/g` (pattern `a`, flags `g`). -/
def flaggedRegexpHeap : Heap := [(0, .regexpObj "a" "g")]

/-- One Date object referenced from both slots of a two-element array. -/
def sharedDateHeap : Heap := [(0, .dateObj 0), (1, .arrayObj [.vobj 0, .vobj 0])]

/-- An `Object.create(null)` object: no constructor, empty chain. -/
def nullProtoHeap : Heap := [(0, .objectObj none [] [("x", .vnum 1)])]

/-- A registry with one entry: class `A` (identity 5) under alias `X`. -/
def aliasedRegistry : List RegEntry := [⟨some "X", 5, "A", none, none⟩]

/-- An instance of a class `B` (identity 7) that extends `A`
(identity 5): its runtime type name is `B`, its chain contains both. -/
def subclassHeap : Heap := [(0, .objectObj (some ⟨7, "B"⟩) [7, 5] [])]

/-- A concrete plain tree touching every round-trippable kind:
primitives, a whole-second Date, a flag-free RegExp, an array, a Map
and a Set inside a record. -/
def roundTripExample : PV :=
  .precord [("x", .pnum 10), ("today", .pdate 5000),
    ("tags", .parray [.pstr "a", .pnull]), ("re", .pregexp "ab" ""),
    ("m", .pmap [(.pnum 1, .pstr "one")]), ("s", .pset [.pnum 1, .pnum 2])]

/-- A concrete shareable tree for the identity-sharing witness. -/
def sharedExample : PV := .parray [.pnum 7]

/-- The id carried by the root node of a serialized form. -/
def rootTagOf : Ser → Option Nat
  | .sobject _ t | .sdate _ t | .smap _ t | .sset _ t | .sregexp _ t
  | .sarray _ t | .sinstance _ _ t | .scustom _ _ t => t
  | _ => none

mutual

/-- Number of `ReferenceNode`s in a serialized form. -/
def countRefs : Ser → Nat
  | .sref _ => 1
  | .sobject kvs _ => countRefsFields kvs
  | .smap kvs _ => countRefsPairs kvs
  | .sset xs _ => countRefsList xs
  | .sarray xs _ => countRefsList xs
  | .sinstance _ kvs _ => countRefsFields kvs
  | .scustom _ p _ => countRefs p
  | _ => 0

def countRefsFields : List (String × Ser) → Nat
  | [] => 0
  | (_, v) :: rest => countRefs v + countRefsFields rest

def countRefsPairs : List (Ser × Ser) → Nat
  | [] => 0
  | (k, v) :: rest => countRefs k + countRefs v + countRefsPairs rest

def countRefsList : List Ser → Nat
  | [] => 0
  | x :: rest => countRefs x + countRefsList rest

end

/-! ## Theorems -/

/-- Helper: an identity absent from the visited-table is not found. -/
theorem findAlreadySerialized_none (a : Nat) (st : SerSt)
    (hfresh : ∀ p ∈ st.visited, p.1 ≠ a) :
    findAlreadySerialized a st = none := by
  unfold findAlreadySerialized
  rw [List.find?_eq_none.mpr]
  intro p hp
  simpa using hfresh p hp

/-! #### Heap and layout lemmas for the round-trip development -/

theorem hlookup_append (h1 h2 : Heap) (a : Nat) :
    hlookup (h1 ++ h2) a = (hlookup h1 a).or (hlookup h2 a) := by
  unfold hlookup
  rw [List.find?_append]
  cases hf : List.find? (fun p => p.1 == a) h1 <;>
    cases hg : List.find? (fun p => p.1 == a) h2 <;> simp [Option.or]

theorem hlookup_append_left (h1 h2 : Heap) (a : Nat)
    (h : hlookup h2 a = none) : hlookup (h1 ++ h2) a = hlookup h1 a := by
  rw [hlookup_append, h]
  cases hlookup h1 a <;> rfl

theorem hlookup_append_right (h1 h2 : Heap) (a : Nat)
    (h : hlookup h1 a = none) : hlookup (h1 ++ h2) a = hlookup h2 a := by
  rw [hlookup_append, h]
  rfl

theorem hlookup_of_bounds {H : Heap} {lo hi a : Nat}
    (hb : ∀ p ∈ H, lo ≤ p.1 ∧ p.1 < hi) (h : a < lo ∨ hi ≤ a) :
    hlookup H a = none := by
  unfold hlookup
  rw [List.find?_eq_none.mpr]
  intro p hp
  have := hb p hp
  simp only [beq_iff_eq]
  omega

theorem hlookup_cons_self (a : Nat) (o : HObject) (t : Heap) :
    hlookup ((a, o) :: t) a = some o := by
  unfold hlookup
  simp [List.find?_cons]

theorem hlookup_cons_ne (b a : Nat) (o : HObject) (t : Heap)
    (h : b ≠ a) : hlookup ((b, o) :: t) a = hlookup t a := by
  unfold hlookup
  rw [List.find?_cons_of_neg]
  simpa using h

theorem hset_middle (h1 : Heap) (a : Nat) (o o2 : HObject) (t : Heap)
    (hna : ∀ p ∈ h1, p.1 ≠ a) :
    hset (h1 ++ (a, o) :: t) a o2 = h1 ++ (a, o2) :: t := by
  induction h1 with
  | nil => simp [hset]
  | cons q h1 ih =>
    have hq : q.1 ≠ a := hna q (by simp)
    simp only [List.cons_append, hset]
    rw [if_neg (by simpa using hq)]
    exact congrArg (List.cons q) (ih (fun p hp => hna p (by simp [hp])))

theorem hlookup_middle (h1 : Heap) (a : Nat) (o : HObject) (t : Heap)
    (hna : ∀ p ∈ h1, p.1 ≠ a) :
    hlookup (h1 ++ (a, o) :: t) a = some o := by
  rw [hlookup_append_right _ _ _ (by
    unfold hlookup
    rw [List.find?_eq_none.mpr]
    intro p hp
    simpa using hna p hp)]
  exact hlookup_cons_self a o t

mutual

theorem pvHeap_mem_bounds (pv : PV) :
    ∀ (n : Nat) (p : Nat × HObject), p ∈ pvHeap pv n →
      n ≤ p.1 ∧ p.1 < n + pvCount pv := by
  intro n p hp
  cases pv with
  | pstr s => simp [pvHeap] at hp
  | pnum m => simp [pvHeap] at hp
  | pbool b => simp [pvHeap] at hp
  | pundef => simp [pvHeap] at hp
  | pnull => simp [pvHeap] at hp
  | pdate t =>
    simp only [pvHeap, List.mem_singleton] at hp
    subst hp
    simp [pvCount]
  | pregexp pt fl =>
    simp only [pvHeap, List.mem_singleton] at hp
    subst hp
    simp [pvCount]
  | pmap es =>
    simp only [pvHeap, List.mem_cons] at hp
    rcases hp with rfl | hp
    · simp [pvCount]
    · have := pvPairsHeap_mem_bounds es (n + 1) p hp
      simp only [pvCount]
      omega
  | pset xs =>
    simp only [pvHeap, List.mem_cons] at hp
    rcases hp with rfl | hp
    · simp [pvCount]
    · have := pvListHeap_mem_bounds xs (n + 1) p hp
      simp only [pvCount]
      omega
  | parray xs =>
    simp only [pvHeap, List.mem_cons] at hp
    rcases hp with rfl | hp
    · simp [pvCount]
    · have := pvListHeap_mem_bounds xs (n + 1) p hp
      simp only [pvCount]
      omega
  | precord fs =>
    simp only [pvHeap, List.mem_cons] at hp
    rcases hp with rfl | hp
    · simp [pvCount]
    · have := pvFieldsHeap_mem_bounds fs (n + 1) p hp
      simp only [pvCount]
      omega

theorem pvPairsHeap_mem_bounds (es : List (PV × PV)) :
    ∀ (n : Nat) (p : Nat × HObject), p ∈ pvPairsHeap es n →
      n ≤ p.1 ∧ p.1 < n + pvCountPairs es := by
  intro n p hp
  match es with
  | [] => simp [pvPairsHeap] at hp
  | (k, v) :: rest =>
    simp only [pvPairsHeap, List.append_assoc, List.mem_append] at hp
    rcases hp with hp | hp | hp
    · have := pvHeap_mem_bounds k n p hp
      simp only [pvCountPairs]
      omega
    · have := pvHeap_mem_bounds v (n + pvCount k) p hp
      simp only [pvCountPairs]
      omega
    · have := pvPairsHeap_mem_bounds rest (n + pvCount k + pvCount v) p hp
      simp only [pvCountPairs]
      omega

theorem pvListHeap_mem_bounds (xs : List PV) :
    ∀ (n : Nat) (p : Nat × HObject), p ∈ pvListHeap xs n →
      n ≤ p.1 ∧ p.1 < n + pvCountList xs := by
  intro n p hp
  match xs with
  | [] => simp [pvListHeap] at hp
  | x :: rest =>
    simp only [pvListHeap, List.mem_append] at hp
    rcases hp with hp | hp
    · have := pvHeap_mem_bounds x n p hp
      simp only [pvCountList]
      omega
    · have := pvListHeap_mem_bounds rest (n + pvCount x) p hp
      simp only [pvCountList]
      omega

theorem pvFieldsHeap_mem_bounds (fs : List (String × PV)) :
    ∀ (n : Nat) (p : Nat × HObject), p ∈ pvFieldsHeap fs n →
      n ≤ p.1 ∧ p.1 < n + pvCountFields fs := by
  intro n p hp
  match fs with
  | [] => simp [pvFieldsHeap] at hp
  | (k, v) :: rest =>
    simp only [pvFieldsHeap, List.mem_append] at hp
    rcases hp with hp | hp
    · have := pvHeap_mem_bounds v n p hp
      simp only [pvCountFields]
      omega
    · have := pvFieldsHeap_mem_bounds rest (n + pvCount v) p hp
      simp only [pvCountFields]
      omega

end

mutual

theorem pushedEntries_spec (pv : PV) :
    ∀ (n : Nat) (p : Nat × Option Nat), p ∈ pushedEntries pv n →
      (n ≤ p.1 ∧ p.1 < n + pvCount pv) ∧ p.2 = none := by
  intro n p hp
  cases pv with
  | pstr s => simp [pushedEntries] at hp
  | pnum m => simp [pushedEntries] at hp
  | pbool b => simp [pushedEntries] at hp
  | pundef => simp [pushedEntries] at hp
  | pnull => simp [pushedEntries] at hp
  | pdate t => simp [pushedEntries] at hp
  | pregexp pt fl =>
    simp only [pushedEntries, List.mem_singleton] at hp
    subst hp
    simp [pvCount]
  | pmap es =>
    simp only [pushedEntries, List.mem_cons] at hp
    rcases hp with rfl | hp
    · simp [pvCount]
    · obtain ⟨hb, hn⟩ := pushedPairs_spec es (n + 1) p hp
      refine ⟨?_, hn⟩
      simp only [pvCount]
      omega
  | pset xs =>
    simp only [pushedEntries, List.mem_cons] at hp
    rcases hp with rfl | hp
    · simp [pvCount]
    · obtain ⟨hb, hn⟩ := pushedList_spec xs (n + 1) p hp
      refine ⟨?_, hn⟩
      simp only [pvCount]
      omega
  | parray xs =>
    simp only [pushedEntries, List.mem_cons] at hp
    rcases hp with rfl | hp
    · simp [pvCount]
    · obtain ⟨hb, hn⟩ := pushedList_spec xs (n + 1) p hp
      refine ⟨?_, hn⟩
      simp only [pvCount]
      omega
  | precord fs =>
    simp only [pushedEntries, List.mem_cons] at hp
    rcases hp with rfl | hp
    · simp [pvCount]
    · obtain ⟨hb, hn⟩ := pushedFields_spec fs (n + 1) p hp
      refine ⟨?_, hn⟩
      simp only [pvCount]
      omega

theorem pushedPairs_spec (es : List (PV × PV)) :
    ∀ (n : Nat) (p : Nat × Option Nat), p ∈ pushedPairs es n →
      (n ≤ p.1 ∧ p.1 < n + pvCountPairs es) ∧ p.2 = none := by
  intro n p hp
  match es with
  | [] => simp [pushedPairs] at hp
  | (k, v) :: rest =>
    simp only [pushedPairs, List.append_assoc, List.mem_append] at hp
    rcases hp with hp | hp | hp
    · obtain ⟨hb, hn⟩ := pushedEntries_spec k n p hp
      refine ⟨?_, hn⟩
      simp only [pvCountPairs]
      omega
    · obtain ⟨hb, hn⟩ := pushedEntries_spec v (n + pvCount k) p hp
      refine ⟨?_, hn⟩
      simp only [pvCountPairs]
      omega
    · obtain ⟨hb, hn⟩ := pushedPairs_spec rest (n + pvCount k + pvCount v) p hp
      refine ⟨?_, hn⟩
      simp only [pvCountPairs]
      omega

theorem pushedList_spec (xs : List PV) :
    ∀ (n : Nat) (p : Nat × Option Nat), p ∈ pushedList xs n →
      (n ≤ p.1 ∧ p.1 < n + pvCountList xs) ∧ p.2 = none := by
  intro n p hp
  match xs with
  | [] => simp [pushedList] at hp
  | x :: rest =>
    simp only [pushedList, List.mem_append] at hp
    rcases hp with hp | hp
    · obtain ⟨hb, hn⟩ := pushedEntries_spec x n p hp
      refine ⟨?_, hn⟩
      simp only [pvCountList]
      omega
    · obtain ⟨hb, hn⟩ := pushedList_spec rest (n + pvCount x) p hp
      refine ⟨?_, hn⟩
      simp only [pvCountList]
      omega

theorem pushedFields_spec (fs : List (String × PV)) :
    ∀ (n : Nat) (p : Nat × Option Nat), p ∈ pushedFields fs n →
      (n ≤ p.1 ∧ p.1 < n + pvCountFields fs) ∧ p.2 = none := by
  intro n p hp
  match fs with
  | [] => simp [pushedFields] at hp
  | (k, v) :: rest =>
    simp only [pushedFields, List.mem_append] at hp
    rcases hp with hp | hp
    · obtain ⟨hb, hn⟩ := pushedEntries_spec v n p hp
      refine ⟨?_, hn⟩
      simp only [pvCountFields]
      omega
    · obtain ⟨hb, hn⟩ := pushedFields_spec rest (n + pvCount v) p hp
      refine ⟨?_, hn⟩
      simp only [pvCountFields]
      omega

end

mutual

theorem decEntries_none_key (pv : PV) :
    ∀ (n : Nat) (p : Option Nat × JSValue), p ∈ decEntries pv none n →
      p.1 = none := by
  intro n p hp
  cases pv with
  | pstr s => simp [decEntries] at hp
  | pnum m => simp [decEntries] at hp
  | pbool b => simp [decEntries] at hp
  | pundef => simp [decEntries] at hp
  | pnull => simp [decEntries] at hp
  | pdate t => simp [decEntries] at hp
  | pregexp pt fl =>
    simp only [decEntries, List.mem_singleton] at hp
    subst hp
    rfl
  | pmap es =>
    simp only [decEntries, List.mem_cons] at hp
    rcases hp with rfl | hp
    · rfl
    · exact decEntriesPairs_none_key es (n + 1) p hp
  | pset xs =>
    simp only [decEntries, List.mem_cons] at hp
    rcases hp with rfl | hp
    · rfl
    · exact decEntriesList_none_key xs (n + 1) p hp
  | parray xs =>
    simp only [decEntries, List.mem_cons] at hp
    rcases hp with rfl | hp
    · rfl
    · exact decEntriesList_none_key xs (n + 1) p hp
  | precord fs =>
    simp only [decEntries, List.mem_cons] at hp
    rcases hp with rfl | hp
    · rfl
    · exact decEntriesFields_none_key fs (n + 1) p hp

theorem decEntriesPairs_none_key (es : List (PV × PV)) :
    ∀ (n : Nat) (p : Option Nat × JSValue), p ∈ decEntriesPairs es n →
      p.1 = none := by
  intro n p hp
  match es with
  | [] => simp [decEntriesPairs] at hp
  | (k, v) :: rest =>
    simp only [decEntriesPairs, List.append_assoc, List.mem_append] at hp
    rcases hp with hp | hp | hp
    · exact decEntries_none_key k n p hp
    · exact decEntries_none_key v (n + pvCount k) p hp
    · exact decEntriesPairs_none_key rest (n + pvCount k + pvCount v) p hp

theorem decEntriesList_none_key (xs : List PV) :
    ∀ (n : Nat) (p : Option Nat × JSValue), p ∈ decEntriesList xs n →
      p.1 = none := by
  intro n p hp
  match xs with
  | [] => simp [decEntriesList] at hp
  | x :: rest =>
    simp only [decEntriesList, List.mem_append] at hp
    rcases hp with hp | hp
    · exact decEntries_none_key x n p hp
    · exact decEntriesList_none_key rest (n + pvCount x) p hp

theorem decEntriesFields_none_key (fs : List (String × PV)) :
    ∀ (n : Nat) (p : Option Nat × JSValue), p ∈ decEntriesFields fs n →
      p.1 = none := by
  intro n p hp
  match fs with
  | [] => simp [decEntriesFields] at hp
  | (k, v) :: rest =>
    simp only [decEntriesFields, List.mem_append] at hp
    rcases hp with hp | hp
    · exact decEntries_none_key v n p hp
    · exact decEntriesFields_none_key rest (n + pvCount v) p hp

end

theorem jsFieldSet_append (acc : List (String × JSValue)) (k : String)
    (v : JSValue) (h : ∀ kv ∈ acc, kv.1 ≠ k) :
    jsFieldSet acc k v = acc ++ [(k, v)] := by
  induction acc with
  | nil => rfl
  | cons q acc ih =>
    have hq : q.1 ≠ k := h q (by simp)
    obtain ⟨q1, q2⟩ := q
    simp only [jsFieldSet]
    rw [if_neg (by simpa using hq)]
    exact congrArg (List.cons (q1, q2)) (ih (fun p hp => h p (by simp [hp])))

theorem jsMapSet_append (acc : List (JSValue × JSValue)) (k v : JSValue)
    (h : ∀ p ∈ acc, jsStrictEq p.1 k = false) :
    jsMapSet acc k v = acc ++ [(k, v)] := by
  induction acc with
  | nil => rfl
  | cons q acc ih =>
    have hq := h q (by simp)
    obtain ⟨q1, q2⟩ := q
    simp only [jsMapSet]
    rw [if_neg (by simp_all)]
    exact congrArg (List.cons (q1, q2)) (ih (fun p hp => h p (by simp [hp])))

theorem jsSetAdd_append (xs : List JSValue) (v : JSValue)
    (h : ∀ x ∈ xs, jsStrictEq x v = false) :
    jsSetAdd xs v = xs ++ [v] := by
  have hc : xs.any (fun x => jsStrictEq x v) = false := by
    rw [List.any_eq_false]
    intro x hx
    simp [h x hx]
  unfold jsSetAdd
  rw [hc]
  simp

theorem valBelow_mono {m m2 : Nat} (h : m ≤ m2) (v : JSValue)
    (hv : valBelow m v = true) : valBelow m2 v = true := by
  cases v
  case vobj a =>
    simp only [valBelow, decide_eq_true_eq] at hv ⊢
    omega
  all_goals rfl

theorem pvVal_valBelow (pv : PV) (n : Nat) :
    valBelow (n + pvCount pv) (pvVal pv n) = true := by
  cases pv <;> simp [pvVal, valBelow, pvCount]

theorem primKey_pvVal {pv : PV} {kv : JSValue} (h : primKey pv = some kv)
    (n : Nat) : pvVal pv n = kv := by
  cases pv <;> simp_all [primKey, pvVal]

theorem primKey_eq_vobj_false (pv : PV) (a : Nat) :
    (primKey pv == some (.vobj a)) = false := by
  cases pv <;> simp [primKey]

theorem primKey_none_pvVal {pv : PV} (h : primKey pv = none) (n : Nat) :
    pvVal pv n = .vobj n := by
  cases pv <;> simp_all [primKey, pvVal]

theorem setRootTag_none_serTree (pv : PV) :
    setRootTag none (serTree pv) = serTree pv := by
  cases pv <;> rfl

theorem whole_second_roundtrip {t : Int} (h : t % 1000 = 0) :
    dateParseMs (dateRenderSeconds t) = t := by
  unfold dateParseMs dateRenderSeconds
  rw [Int.fdiv_eq_ediv _ (by norm_num)]
  rw [mul_comm]
  exact Int.ediv_mul_cancel (Int.dvd_of_emod_eq_zero h)

theorem jsSlice_regexp_noflags (p : String) :
    jsSlice1Neg1 (jsRegExpToString p "") = p := by
  unfold jsSlice1Neg1 jsRegExpToString
  have hd : ("/" ++ p ++ "/" ++ "").data = '/' :: (p.data ++ ['/']) := by
    simp [String.data_append]
  rw [hd]
  simp only [List.drop_succ_cons, List.drop_zero, List.dropLast_concat]

mutual

theorem patch_preSerTree_none (pv : PV) :
    ∀ (n : Nat) (f : Nat → Option Nat), (∀ a, n ≤ a → f a = none) →
      patch f (preSerTree pv n) = serTree pv := by
  intro n f hf
  cases pv with
  | pstr s => rfl
  | pnum m => rfl
  | pbool b => rfl
  | pundef => rfl
  | pnull => rfl
  | pdate t =>
    simp only [preSerTree, serTree, patch]
    rw [hf n (le_refl n)]
  | pregexp pt fl =>
    simp only [preSerTree, serTree, patch]
    rw [hf n (le_refl n)]
  | pmap es =>
    simp only [preSerTree, serTree, patch]
    rw [hf n (le_refl n),
      patchPairs_preSerTree_none es (n + 1) f (fun a ha => hf a (by omega))]
  | pset xs =>
    simp only [preSerTree, serTree, patch]
    rw [hf n (le_refl n),
      patchList_preSerTree_none xs (n + 1) f (fun a ha => hf a (by omega))]
  | parray xs =>
    simp only [preSerTree, serTree, patch]
    rw [hf n (le_refl n),
      patchList_preSerTree_none xs (n + 1) f (fun a ha => hf a (by omega))]
  | precord fs =>
    simp only [preSerTree, serTree, patch]
    rw [hf n (le_refl n),
      patchFields_preSerTree_none fs (n + 1) f (fun a ha => hf a (by omega))]

theorem patchPairs_preSerTree_none (es : List (PV × PV)) :
    ∀ (n : Nat) (f : Nat → Option Nat), (∀ a, n ≤ a → f a = none) →
      patchPairs f (preSerTreePairs es n) = serTreePairs es := by
  intro n f hf
  match es with
  | [] => rfl
  | (k, v) :: rest =>
    simp only [preSerTreePairs, serTreePairs, patchPairs]
    rw [patch_preSerTree_none k n f hf,
      patch_preSerTree_none v (n + pvCount k) f (fun a ha => hf a (by omega)),
      patchPairs_preSerTree_none rest (n + pvCount k + pvCount v) f
        (fun a ha => hf a (by omega))]

theorem patchList_preSerTree_none (xs : List PV) :
    ∀ (n : Nat) (f : Nat → Option Nat), (∀ a, n ≤ a → f a = none) →
      patchList f (preSerTreeList xs n) = serTreeList xs := by
  intro n f hf
  match xs with
  | [] => rfl
  | x :: rest =>
    simp only [preSerTreeList, serTreeList, patchList]
    rw [patch_preSerTree_none x n f hf,
      patchList_preSerTree_none rest (n + pvCount x) f
        (fun a ha => hf a (by omega))]

theorem patchFields_preSerTree_none (fs : List (String × PV)) :
    ∀ (n : Nat) (f : Nat → Option Nat), (∀ a, n ≤ a → f a = none) →
      patchFields f (preSerTreeFields fs n) = serTreeFields fs := by
  intro n f hf
  match fs with
  | [] => rfl
  | (k, v) :: rest =>
    simp only [preSerTreeFields, serTreeFields, patchFields]
    rw [patch_preSerTree_none v n f hf,
      patchFields_preSerTree_none rest (n + pvCount v) f
        (fun a ha => hf a (by omega))]

end

theorem patch_preSerTree_root (pv : PV) (n : Nat) (f : Nat → Option Nat)
    (r : Option Nat) (hr : f n = r) (hf : ∀ a, n + 1 ≤ a → f a = none) :
    patch f (preSerTree pv n) = setRootTag r (serTree pv) := by
  cases pv with
  | pstr s => rfl
  | pnum m => rfl
  | pbool b => rfl
  | pundef => rfl
  | pnull => rfl
  | pdate t =>
    simp only [preSerTree, serTree, patch, setRootTag]
    rw [hr]
  | pregexp pt fl =>
    simp only [preSerTree, serTree, patch, setRootTag]
    rw [hr]
  | pmap es =>
    simp only [preSerTree, serTree, patch, setRootTag]
    rw [hr, patchPairs_preSerTree_none es (n + 1) f hf]
  | pset xs =>
    simp only [preSerTree, serTree, patch, setRootTag]
    rw [hr, patchList_preSerTree_none xs (n + 1) f hf]
  | parray xs =>
    simp only [preSerTree, serTree, patch, setRootTag]
    rw [hr, patchList_preSerTree_none xs (n + 1) f hf]
  | precord fs =>
    simp only [preSerTree, serTree, patch, setRootTag]
    rw [hr, patchFields_preSerTree_none fs (n + 1) f hf]

/-! #### The encoder on unshared trees

On a tree laid out at base `n` in any heap agreeing with the layout,
with a visited-table whose identities all lie below `n`, the encoder
never revisits anything: it returns the tree's node, pushes exactly
the tree's shareable objects in pre-order with no ids assigned, and
leaves the counter untouched. -/

mutual

theorem serialize_tree (reg : List RegEntry) (opts : SerOptions) (pv : PV) :
    ∀ (n : Nat) (H : Heap) (fuel : Nat) (vis : List (Nat × Option Nat))
      (c : Nat),
      heapAgree H (pvHeap pv n) n (n + pvCount pv) →
      (∀ p ∈ vis, p.1 < n) →
      pvFuel pv ≤ fuel →
      doSerialize reg opts H fuel (pvVal pv n) ⟨vis, c⟩ =
        .ok (preSerTree pv n, ⟨vis ++ pushedEntries pv n, c⟩) := by
  intro n H fuel vis c hagree hvis hfuel
  cases pv with
  | pstr s =>
    cases fuel with
    | zero => simp [pvFuel] at hfuel
    | succ f =>
      simp [doSerialize, classify, isPrimitiveType, primToSer, pvVal,
        preSerTree, pushedEntries]
  | pnum m =>
    cases fuel with
    | zero => simp [pvFuel] at hfuel
    | succ f =>
      simp [doSerialize, classify, isPrimitiveType, primToSer, pvVal,
        preSerTree, pushedEntries]
  | pbool b =>
    cases fuel with
    | zero => simp [pvFuel] at hfuel
    | succ f =>
      simp [doSerialize, classify, isPrimitiveType, primToSer, pvVal,
        preSerTree, pushedEntries]
  | pundef =>
    cases fuel with
    | zero => simp [pvFuel] at hfuel
    | succ f =>
      simp [doSerialize, classify, isPrimitiveType, primToSer, pvVal,
        preSerTree, pushedEntries]
  | pnull =>
    cases fuel with
    | zero => simp [pvFuel] at hfuel
    | succ f =>
      simp [doSerialize, classify, isPrimitiveType, primToSer, pvVal,
        preSerTree, pushedEntries]
  | pdate t =>
    match fuel, hfuel with
    | 0, hfuel =>
      simp [pvFuel] at hfuel
    | 1, hfuel =>
      simp [pvFuel] at hfuel
    | f + 2, _ =>
      have hsel : hlookup H n = some (.dateObj t) := by
        rw [hagree n (le_refl n) (by simp only [pvCount]; omega)]
        simp only [pvHeap]
        exact hlookup_cons_self n _ _
      have hcl : classify H (.vobj n) = .builtinK := by
        simp [classify, isPrimitiveType, isSymbol, isFunction, isBuiltInType,
          hsel]
      have hfind := findAlreadySerialized_none n ⟨vis, c⟩
        (fun p hp => Nat.ne_of_lt (hvis p hp))
      simp [pvVal, doSerialize, hcl, serializeBuiltInType, hfind, hsel,
        preSerTree, pushedEntries]
  | pregexp pt fl =>
    match fuel, hfuel with
    | 0, hfuel =>
      simp [pvFuel] at hfuel
    | 1, hfuel =>
      simp [pvFuel] at hfuel
    | f + 2, _ =>
      have hsel : hlookup H n = some (.regexpObj pt fl) := by
        rw [hagree n (le_refl n) (by simp only [pvCount]; omega)]
        simp only [pvHeap]
        exact hlookup_cons_self n _ _
      have hcl : classify H (.vobj n) = .builtinK := by
        simp [classify, isPrimitiveType, isSymbol, isFunction, isBuiltInType,
          hsel]
      have hfind := findAlreadySerialized_none n ⟨vis, c⟩
        (fun p hp => Nat.ne_of_lt (hvis p hp))
      simp [pvVal, doSerialize, hcl, serializeBuiltInType, hfind, hsel,
        preSerTree, pushedEntries]
  | pmap es =>
    match fuel, hfuel with
    | 0, hfuel =>
      simp only [pvFuel] at hfuel
      omega
    | 1, hfuel =>
      simp only [pvFuel] at hfuel
      omega
    | f + 2, hfuel =>
      have hsel : hlookup H n = some (.mapObj (pvPairsVals es (n + 1))) := by
        rw [hagree n (le_refl n) (by simp only [pvCount]; omega)]
        simp only [pvHeap]
        exact hlookup_cons_self n _ _
      have hcl : classify H (.vobj n) = .builtinK := by
        simp [classify, isPrimitiveType, isSymbol, isFunction, isBuiltInType,
          hsel]
      have hfind := findAlreadySerialized_none n ⟨vis, c⟩
        (fun p hp => Nat.ne_of_lt (hvis p hp))
      have hagree2 : heapAgree H (pvPairsHeap es (n + 1)) (n + 1)
          (n + 1 + pvCountPairs es) := by
        intro a h1 h2
        rw [hagree a (by omega) (by simp only [pvCount]; omega)]
        simp only [pvHeap]
        exact hlookup_cons_ne n a _ _ (by omega)
      have hvis2 : ∀ p ∈ vis ++ [(n, (none : Option Nat))], p.1 < n + 1 := by
        intro p hp
        rcases List.mem_append.mp hp with hp | hp
        · exact Nat.lt_succ_of_lt (hvis p hp)
        · simp only [List.mem_singleton] at hp
          subst hp
          simp
      have hpairs := serialize_tree_pairs reg opts es (n + 1) H f
        (vis ++ [(n, none)]) c hagree2 hvis2
        (by simp only [pvFuel] at hfuel; omega)
      simp only [pvVal, doSerialize, hcl, serializeBuiltInType, hfind, hsel]
      rw [hpairs]
      simp [preSerTree, pushedEntries]
  | pset xs =>
    match fuel, hfuel with
    | 0, hfuel =>
      simp only [pvFuel] at hfuel
      omega
    | 1, hfuel =>
      simp only [pvFuel] at hfuel
      omega
    | f + 2, hfuel =>
      have hsel : hlookup H n = some (.setObj (pvListVals xs (n + 1))) := by
        rw [hagree n (le_refl n) (by simp only [pvCount]; omega)]
        simp only [pvHeap]
        exact hlookup_cons_self n _ _
      have hcl : classify H (.vobj n) = .builtinK := by
        simp [classify, isPrimitiveType, isSymbol, isFunction, isBuiltInType,
          hsel]
      have hfind := findAlreadySerialized_none n ⟨vis, c⟩
        (fun p hp => Nat.ne_of_lt (hvis p hp))
      have hagree2 : heapAgree H (pvListHeap xs (n + 1)) (n + 1)
          (n + 1 + pvCountList xs) := by
        intro a h1 h2
        rw [hagree a (by omega) (by simp only [pvCount]; omega)]
        simp only [pvHeap]
        exact hlookup_cons_ne n a _ _ (by omega)
      have hvis2 : ∀ p ∈ vis ++ [(n, (none : Option Nat))], p.1 < n + 1 := by
        intro p hp
        rcases List.mem_append.mp hp with hp | hp
        · exact Nat.lt_succ_of_lt (hvis p hp)
        · simp only [List.mem_singleton] at hp
          subst hp
          simp
      have hitems := serialize_tree_list reg opts xs (n + 1) H f
        (vis ++ [(n, none)]) c hagree2 hvis2
        (by simp only [pvFuel] at hfuel; omega)
      simp only [pvVal, doSerialize, hcl, serializeBuiltInType, hfind, hsel]
      rw [hitems]
      simp [preSerTree, pushedEntries]
  | parray xs =>
    match fuel, hfuel with
    | 0, hfuel =>
      simp only [pvFuel] at hfuel
      omega
    | 1, hfuel =>
      simp only [pvFuel] at hfuel
      omega
    | f + 2, hfuel =>
      have hsel : hlookup H n = some (.arrayObj (pvListVals xs (n + 1))) := by
        rw [hagree n (le_refl n) (by simp only [pvCount]; omega)]
        simp only [pvHeap]
        exact hlookup_cons_self n _ _
      have hcl : classify H (.vobj n) = .arrayK := by
        simp [classify, isPrimitiveType, isSymbol, isFunction, isBuiltInType,
          isArrayValue, hsel]
      have hfind := findAlreadySerialized_none n ⟨vis, c⟩
        (fun p hp => Nat.ne_of_lt (hvis p hp))
      have hagree2 : heapAgree H (pvListHeap xs (n + 1)) (n + 1)
          (n + 1 + pvCountList xs) := by
        intro a h1 h2
        rw [hagree a (by omega) (by simp only [pvCount]; omega)]
        simp only [pvHeap]
        exact hlookup_cons_ne n a _ _ (by omega)
      have hvis2 : ∀ p ∈ vis ++ [(n, (none : Option Nat))], p.1 < n + 1 := by
        intro p hp
        rcases List.mem_append.mp hp with hp | hp
        · exact Nat.lt_succ_of_lt (hvis p hp)
        · simp only [List.mem_singleton] at hp
          subst hp
          simp
      have hitems := serialize_tree_list reg opts xs (n + 1) H f
        (vis ++ [(n, none)]) c hagree2 hvis2
        (by simp only [pvFuel] at hfuel; omega)
      simp only [pvVal, doSerialize, hcl, serializeArray, hfind, hsel]
      rw [hitems]
      simp [preSerTree, pushedEntries]
  | precord fs =>
    match fuel, hfuel with
    | 0, hfuel =>
      simp only [pvFuel] at hfuel
      omega
    | 1, hfuel =>
      simp only [pvFuel] at hfuel
      omega
    | f + 2, hfuel =>
      have hsel : hlookup H n = some (.objectObj (some objectCtor)
          [objectCtor.cid] (pvFieldsVals fs (n + 1))) := by
        rw [hagree n (le_refl n) (by simp only [pvCount]; omega)]
        simp only [pvHeap]
        exact hlookup_cons_self n _ _
      have hcl : classify H (.vobj n) = .recordK := by
        simp [classify, isPrimitiveType, isSymbol, isFunction, isBuiltInType,
          isArrayValue, isObjectLiteral, hsel, objectCtor]
      have hfind := findAlreadySerialized_none n ⟨vis, c⟩
        (fun p hp => Nat.ne_of_lt (hvis p hp))
      have hagree2 : heapAgree H (pvFieldsHeap fs (n + 1)) (n + 1)
          (n + 1 + pvCountFields fs) := by
        intro a h1 h2
        rw [hagree a (by omega) (by simp only [pvCount]; omega)]
        simp only [pvHeap]
        exact hlookup_cons_ne n a _ _ (by omega)
      have hvis2 : ∀ p ∈ vis ++ [(n, (none : Option Nat))], p.1 < n + 1 := by
        intro p hp
        rcases List.mem_append.mp hp with hp | hp
        · exact Nat.lt_succ_of_lt (hvis p hp)
        · simp only [List.mem_singleton] at hp
          subst hp
          simp
      have hflds := serialize_tree_fields reg opts fs (n + 1) H f
        (vis ++ [(n, none)]) c hagree2 hvis2
        (by simp only [pvFuel] at hfuel; omega)
      simp only [pvVal, doSerialize, hcl, serializeObjectLiteral, hfind, hsel]
      rw [hflds]
      simp [preSerTree, pushedEntries]

theorem serialize_tree_pairs (reg : List RegEntry) (opts : SerOptions)
    (es : List (PV × PV)) :
    ∀ (n : Nat) (H : Heap) (fuel : Nat) (vis : List (Nat × Option Nat))
      (c : Nat),
      heapAgree H (pvPairsHeap es n) n (n + pvCountPairs es) →
      (∀ p ∈ vis, p.1 < n) →
      pvFuelPairs es ≤ fuel →
      serializePairsWith (fun v stx => doSerialize reg opts H fuel v stx)
        (pvPairsVals es n) ⟨vis, c⟩ =
        .ok (preSerTreePairs es n, ⟨vis ++ pushedPairs es n, c⟩) := by
  intro n H fuel vis c hagree hvis hfuel
  match es with
  | [] => simp [pvPairsVals, serializePairsWith, preSerTreePairs, pushedPairs]
  | (k, v) :: rest =>
    simp only [pvFuelPairs, Nat.max_le] at hfuel
    have hagreek : heapAgree H (pvHeap k n) n (n + pvCount k) := by
      intro a h1 h2
      rw [hagree a h1 (by simp only [pvCountPairs]; omega)]
      simp only [pvPairsHeap]
      rw [hlookup_append_left _ _ _ (hlookup_of_bounds
        (pvPairsHeap_mem_bounds rest _) (by omega))]
      rw [hlookup_append_left _ _ _ (hlookup_of_bounds
        (pvHeap_mem_bounds v _) (by omega))]
    have hk := serialize_tree reg opts k n H fuel vis c hagreek hvis
      hfuel.1.1
    have hvisk : ∀ p ∈ vis ++ pushedEntries k n, p.1 < n + pvCount k := by
      intro p hp
      rcases List.mem_append.mp hp with hp | hp
      · have := hvis p hp
        omega
      · exact (pushedEntries_spec k n p hp).1.2
    have hagreev : heapAgree H (pvHeap v (n + pvCount k)) (n + pvCount k)
        (n + pvCount k + pvCount v) := by
      intro a h1 h2
      rw [hagree a (by omega) (by simp only [pvCountPairs]; omega)]
      simp only [pvPairsHeap]
      rw [hlookup_append_left _ _ _ (hlookup_of_bounds
        (pvPairsHeap_mem_bounds rest _) (by omega))]
      rw [hlookup_append_right _ _ _ (hlookup_of_bounds
        (pvHeap_mem_bounds k _) (by omega))]
    have hv := serialize_tree reg opts v (n + pvCount k) H fuel
      (vis ++ pushedEntries k n) c hagreev hvisk hfuel.1.2
    have hvisv : ∀ p ∈ (vis ++ pushedEntries k n) ++
        pushedEntries v (n + pvCount k),
        p.1 < n + pvCount k + pvCount v := by
      intro p hp
      rcases List.mem_append.mp hp with hp | hp
      · have := hvisk p hp
        omega
      · exact (pushedEntries_spec v (n + pvCount k) p hp).1.2
    have hagreer : heapAgree H (pvPairsHeap rest (n + pvCount k + pvCount v))
        (n + pvCount k + pvCount v)
        (n + pvCount k + pvCount v + pvCountPairs rest) := by
      intro a h1 h2
      rw [hagree a (by omega) (by simp only [pvCountPairs]; omega)]
      simp only [pvPairsHeap]
      have hA : hlookup (pvHeap k n) a = none :=
        hlookup_of_bounds (pvHeap_mem_bounds k n) (by omega)
      have hB : hlookup (pvHeap v (n + pvCount k)) a = none :=
        hlookup_of_bounds (pvHeap_mem_bounds v (n + pvCount k)) (by omega)
      have hAB : hlookup (pvHeap k n ++ pvHeap v (n + pvCount k)) a = none := by
        rw [hlookup_append, hA, hB]
        rfl
      rw [hlookup_append_right _ _ _ hAB]
    have hrest := serialize_tree_pairs reg opts rest
      (n + pvCount k + pvCount v) H fuel
      ((vis ++ pushedEntries k n) ++ pushedEntries v (n + pvCount k)) c
      hagreer hvisv hfuel.2
    simp only [pvPairsVals, serializePairsWith, hk, hv, hrest]
    simp only [preSerTreePairs, pushedPairs, List.append_assoc]

theorem serialize_tree_list (reg : List RegEntry) (opts : SerOptions)
    (xs : List PV) :
    ∀ (n : Nat) (H : Heap) (fuel : Nat) (vis : List (Nat × Option Nat))
      (c : Nat),
      heapAgree H (pvListHeap xs n) n (n + pvCountList xs) →
      (∀ p ∈ vis, p.1 < n) →
      pvFuelList xs ≤ fuel →
      serializeItemsWith (fun v stx => doSerialize reg opts H fuel v stx)
        (pvListVals xs n) ⟨vis, c⟩ =
        .ok (preSerTreeList xs n, ⟨vis ++ pushedList xs n, c⟩) := by
  intro n H fuel vis c hagree hvis hfuel
  match xs with
  | [] => simp [pvListVals, serializeItemsWith, preSerTreeList, pushedList]
  | x :: rest =>
    simp only [pvFuelList, Nat.max_le] at hfuel
    have hagreex : heapAgree H (pvHeap x n) n (n + pvCount x) := by
      intro a h1 h2
      rw [hagree a h1 (by simp only [pvCountList]; omega)]
      simp only [pvListHeap]
      rw [hlookup_append_left _ _ _ (hlookup_of_bounds
        (pvListHeap_mem_bounds rest _) (by omega))]
    have hx := serialize_tree reg opts x n H fuel vis c hagreex hvis hfuel.1
    have hvisx : ∀ p ∈ vis ++ pushedEntries x n, p.1 < n + pvCount x := by
      intro p hp
      rcases List.mem_append.mp hp with hp | hp
      · have := hvis p hp
        omega
      · exact (pushedEntries_spec x n p hp).1.2
    have hagreer : heapAgree H (pvListHeap rest (n + pvCount x))
        (n + pvCount x) (n + pvCount x + pvCountList rest) := by
      intro a h1 h2
      rw [hagree a (by omega) (by simp only [pvCountList]; omega)]
      simp only [pvListHeap]
      rw [hlookup_append_right _ _ _ (hlookup_of_bounds
        (pvHeap_mem_bounds x _) (by omega))]
    have hrest := serialize_tree_list reg opts rest (n + pvCount x) H fuel
      (vis ++ pushedEntries x n) c hagreer hvisx hfuel.2
    simp only [pvListVals, serializeItemsWith, hx, hrest]
    simp only [preSerTreeList, pushedList, List.append_assoc]

theorem serialize_tree_fields (reg : List RegEntry) (opts : SerOptions)
    (fs : List (String × PV)) :
    ∀ (n : Nat) (H : Heap) (fuel : Nat) (vis : List (Nat × Option Nat))
      (c : Nat),
      heapAgree H (pvFieldsHeap fs n) n (n + pvCountFields fs) →
      (∀ p ∈ vis, p.1 < n) →
      pvFuelFields fs ≤ fuel →
      serializeFieldsWith (fun v stx => doSerialize reg opts H fuel v stx)
        (pvFieldsVals fs n) ⟨vis, c⟩ =
        .ok (preSerTreeFields fs n, ⟨vis ++ pushedFields fs n, c⟩) := by
  intro n H fuel vis c hagree hvis hfuel
  match fs with
  | [] => simp [pvFieldsVals, serializeFieldsWith, preSerTreeFields, pushedFields]
  | (k, v) :: rest =>
    simp only [pvFuelFields, Nat.max_le] at hfuel
    have hagreev : heapAgree H (pvHeap v n) n (n + pvCount v) := by
      intro a h1 h2
      rw [hagree a h1 (by simp only [pvCountFields]; omega)]
      simp only [pvFieldsHeap]
      rw [hlookup_append_left _ _ _ (hlookup_of_bounds
        (pvFieldsHeap_mem_bounds rest _) (by omega))]
    have hv := serialize_tree reg opts v n H fuel vis c hagreev hvis hfuel.1
    have hvisv : ∀ p ∈ vis ++ pushedEntries v n, p.1 < n + pvCount v := by
      intro p hp
      rcases List.mem_append.mp hp with hp | hp
      · have := hvis p hp
        omega
      · exact (pushedEntries_spec v n p hp).1.2
    have hagreer : heapAgree H (pvFieldsHeap rest (n + pvCount v))
        (n + pvCount v) (n + pvCount v + pvCountFields rest) := by
      intro a h1 h2
      rw [hagree a (by omega) (by simp only [pvCountFields]; omega)]
      simp only [pvFieldsHeap]
      rw [hlookup_append_right _ _ _ (hlookup_of_bounds
        (pvHeap_mem_bounds v _) (by omega))]
    have hrest := serialize_tree_fields reg opts rest (n + pvCount v) H fuel
      (vis ++ pushedEntries v n) c hagreer hvisv hfuel.2
    simp only [pvFieldsVals, serializeFieldsWith, hv, hrest]
    simp only [preSerTreeFields, pushedFields, List.append_assoc]

end

/-! #### The decoder on unshared trees -/

theorem jsStrictEq_fresh {m : Nat} {w : JSValue} (h : valBelow m w = true) :
    jsStrictEq w (.vobj m) = false := by
  cases w with
  | vobj b =>
    simp only [valBelow, decide_eq_true_eq] at h
    simp only [jsStrictEq, beq_eq_false_iff_ne, ne_eq, JSValue.vobj.injEq]
    omega
  | _ => simp [jsStrictEq]

theorem jsStrictEq_of_primKey_false {pv : PV} {kv w : JSValue}
    (hk : primKey pv = some kv) (h : (primKey pv == some w) = false) :
    jsStrictEq w kv = false := by
  rw [hk] at h
  simp only [jsStrictEq, beq_eq_false_iff_ne, ne_eq]
  intro hcon
  subst hcon
  simp at h

/-! On the serialized form of a plain tree, the decoder reconstructs,
starting at its next fresh address, exactly the layout `pvHeap`/`pvVal`
of the tree itself: the round trip is the identity on the
heap-and-value representation. -/

mutual

theorem deserialize_tree (reg : List RegEntry) (opts : SerOptions) (pv : PV) :
    ∀ (r : Option Nat) (hp : Heap) (nx : Nat)
      (tb : List (Option Nat × JSValue)) (fuel : Nat),
      plainB pv = true →
      pvFuel pv ≤ fuel →
      (∀ p ∈ hp, p.1 < nx) →
      doDeserialize reg opts fuel (setRootTag r (serTree pv)) ⟨hp, nx, tb⟩ =
        .ok (pvVal pv nx,
          ⟨hp ++ pvHeap pv nx, nx + pvCount pv, tb ++ decEntries pv r nx⟩) := by
  intro r hp nx tb fuel hplain hfuel hbound
  cases pv with
  | pstr s =>
    match fuel, hfuel with
    | f + 1, _ =>
      simp [serTree, setRootTag, doDeserialize, pvVal, pvHeap, pvCount,
        decEntries]
  | pnum m =>
    match fuel, hfuel with
    | f + 1, _ =>
      simp [serTree, setRootTag, doDeserialize, pvVal, pvHeap, pvCount,
        decEntries]
  | pbool b =>
    match fuel, hfuel with
    | f + 1, _ =>
      simp [serTree, setRootTag, doDeserialize, pvVal, pvHeap, pvCount,
        decEntries]
  | pundef =>
    match fuel, hfuel with
    | f + 1, _ =>
      simp [serTree, setRootTag, doDeserialize, pvVal, pvHeap, pvCount,
        decEntries]
  | pnull =>
    match fuel, hfuel with
    | f + 1, _ =>
      simp [serTree, setRootTag, doDeserialize, pvVal, pvHeap, pvCount,
        decEntries]
  | pdate t =>
    match fuel, hfuel with
    | 0, hfuel =>
      simp [pvFuel] at hfuel
    | 1, hfuel =>
      simp [pvFuel] at hfuel
    | f + 2, _ =>
      have ht : dateParseMs (dateRenderSeconds t) = t :=
        whole_second_roundtrip (by simpa [plainB] using hplain)
      simp [serTree, setRootTag, doDeserialize, deserializeBuiltInType,
        allocD, ht, pvVal, pvHeap, pvCount, decEntries]
  | pregexp pt fl =>
    match fuel, hfuel with
    | 0, hfuel =>
      simp [pvFuel] at hfuel
    | 1, hfuel =>
      simp [pvFuel] at hfuel
    | f + 2, _ =>
      have hfl : fl = "" := by simpa [plainB] using hplain
      subst hfl
      simp [serTree, setRootTag, doDeserialize, deserializeBuiltInType,
        allocD, jsSlice_regexp_noflags, pvVal, pvHeap, pvCount, decEntries]
  | pmap es =>
    match fuel, hfuel with
    | 0, hfuel =>
      simp only [pvFuel] at hfuel
      omega
    | 1, hfuel =>
      simp only [pvFuel] at hfuel
      omega
    | f + 2, hfuel =>
      simp only [plainB, Bool.and_eq_true] at hplain
      have hpairs := deserialize_tree_pairs reg opts es f nx
        hp [] [] (nx + 1) (tb ++ [(r, .vobj nx)])
        hplain.2 hplain.1 (by simp only [pvFuel] at hfuel; omega)
        (fun p hpm => Nat.ne_of_lt (hbound p hpm))
        (fun p hpm => Nat.lt_succ_of_lt (hbound p hpm))
        (Nat.lt_succ_self nx)
        (by simp)
        (by simp)
        (by simp)
      simp only [serTree, setRootTag, doDeserialize, deserializeBuiltInType,
        allocD]
      simp only [List.append_nil] at hpairs
      rw [hpairs]
      simp [pvVal, pvHeap, pvCount, decEntries, Nat.add_assoc]
  | pset xs =>
    match fuel, hfuel with
    | 0, hfuel =>
      simp only [pvFuel] at hfuel
      omega
    | 1, hfuel =>
      simp only [pvFuel] at hfuel
      omega
    | f + 2, hfuel =>
      simp only [plainB, Bool.and_eq_true] at hplain
      have hitems := deserialize_tree_set reg opts xs f nx
        hp [] [] (nx + 1) (tb ++ [(r, .vobj nx)])
        hplain.2 hplain.1 (by simp only [pvFuel] at hfuel; omega)
        (fun p hpm => Nat.ne_of_lt (hbound p hpm))
        (fun p hpm => Nat.lt_succ_of_lt (hbound p hpm))
        (Nat.lt_succ_self nx)
        (by simp)
        (by simp)
        (by simp)
      simp only [serTree, setRootTag, doDeserialize, deserializeBuiltInType,
        allocD]
      simp only [List.append_nil] at hitems
      rw [hitems]
      simp [pvVal, pvHeap, pvCount, decEntries, Nat.add_assoc]
  | parray xs =>
    match fuel, hfuel with
    | 0, hfuel =>
      simp only [pvFuel] at hfuel
      omega
    | 1, hfuel =>
      simp only [pvFuel] at hfuel
      omega
    | f + 2, hfuel =>
      simp only [plainB] at hplain
      have hitems := deserialize_tree_array reg opts xs f nx
        hp [] [] (nx + 1) (tb ++ [(r, .vobj nx)])
        hplain (by simp only [pvFuel] at hfuel; omega)
        (fun p hpm => Nat.ne_of_lt (hbound p hpm))
        (fun p hpm => Nat.lt_succ_of_lt (hbound p hpm))
        (Nat.lt_succ_self nx)
        (by simp)
      simp only [serTree, setRootTag, doDeserialize, deserializeArray,
        allocD]
      simp only [List.append_nil] at hitems
      rw [hitems]
      simp [pvVal, pvHeap, pvCount, decEntries, Nat.add_assoc]
  | precord fs =>
    match fuel, hfuel with
    | 0, hfuel =>
      simp only [pvFuel] at hfuel
      omega
    | 1, hfuel =>
      simp only [pvFuel] at hfuel
      omega
    | f + 2, hfuel =>
      simp only [plainB, Bool.and_eq_true] at hplain
      have hflds := deserialize_tree_fields reg opts fs f nx
        (some objectCtor) [objectCtor.cid]
        hp [] [] (nx + 1) (tb ++ [(r, .vobj nx)])
        hplain.2 hplain.1 (by simp only [pvFuel] at hfuel; omega)
        (fun p hpm => Nat.ne_of_lt (hbound p hpm))
        (fun p hpm => Nat.lt_succ_of_lt (hbound p hpm))
        (Nat.lt_succ_self nx)
        (by simp)
        (by simp)
      simp only [serTree, setRootTag, doDeserialize, deserializeObjectLiteral,
        allocD]
      simp only [List.append_nil] at hflds
      rw [hflds]
      simp [pvVal, pvHeap, pvCount, decEntries, Nat.add_assoc]

theorem deserialize_tree_pairs (reg : List RegEntry) (opts : SerOptions)
    (es : List (PV × PV)) :
    ∀ (fuel a : Nat) (h1 h2 : Heap) (acc : List (JSValue × JSValue))
      (nx : Nat) (tb : List (Option Nat × JSValue)),
      plainPairs es = true →
      keysDisjoint (List.map (fun q => q.1) es) = true →
      pvFuelPairs es ≤ fuel →
      (∀ p ∈ h1, p.1 ≠ a) →
      (∀ p ∈ h1, p.1 < nx) →
      a < nx →
      (∀ p ∈ h2, p.1 < nx) →
      (∀ p ∈ acc, valBelow nx p.1 = true) →
      (∀ p ∈ acc, ∀ q ∈ es, (primKey q.1 == some p.1) = false) →
      deserializeMapEntriesWith
        (fun src stx => doDeserialize reg opts fuel src stx) a
        (serTreePairs es) ⟨h1 ++ (a, .mapObj acc) :: h2, nx, tb⟩ =
        .ok ⟨h1 ++ (a, .mapObj (acc ++ pvPairsVals es nx)) ::
              (h2 ++ pvPairsHeap es nx),
          nx + pvCountPairs es, tb ++ decEntriesPairs es nx⟩ := by
  intro fuel a h1 h2 acc nx tb hplain hkd hfuel hna hb1 hba hb2 hvb hpk
  match es with
  | [] =>
    simp [serTreePairs, deserializeMapEntriesWith, pvPairsVals, pvPairsHeap,
      pvCountPairs, decEntriesPairs]
  | (k, v) :: rest =>
    simp only [plainPairs, Bool.and_eq_true] at hplain
    simp only [List.map_cons, keysDisjoint, Bool.and_eq_true] at hkd
    simp only [pvFuelPairs, Nat.max_le] at hfuel
    have hboundall : ∀ p ∈ h1 ++ (a, HObject.mapObj acc) :: h2, p.1 < nx := by
      intro p hp
      rcases List.mem_append.mp hp with hp | hp
      · exact hb1 p hp
      · rcases List.mem_cons.mp hp with rfl | hp
        · exact hba
        · exact hb2 p hp
    have hk := deserialize_tree reg opts k none
      (h1 ++ (a, .mapObj acc) :: h2) nx tb fuel hplain.1.1 hfuel.1.1
      hboundall
    rw [setRootTag_none_serTree] at hk
    have hbound2 : ∀ p ∈ (h1 ++ (a, HObject.mapObj acc) :: h2) ++
        pvHeap k nx, p.1 < nx + pvCount k := by
      intro p hp
      rcases List.mem_append.mp hp with hp | hp
      · have := hboundall p hp
        omega
      · exact (pvHeap_mem_bounds k nx p hp).2
    have hv := deserialize_tree reg opts v none
      ((h1 ++ (a, .mapObj acc) :: h2) ++ pvHeap k nx) (nx + pvCount k)
      (tb ++ decEntries k none nx) fuel hplain.1.2 hfuel.1.2 hbound2
    rw [setRootTag_none_serTree] at hv
    -- the Map.set call appends: the new key is fresh for acc
    have hfreshk : ∀ p ∈ acc, jsStrictEq p.1 (pvVal k nx) = false := by
      intro p hp
      cases hpkk : primKey k with
      | some kv =>
        rw [primKey_pvVal hpkk]
        exact jsStrictEq_of_primKey_false hpkk (hpk p hp (k, v) (by simp))
      | none =>
        rw [primKey_none_pvVal hpkk]
        exact jsStrictEq_fresh (hvb p hp)
    have hmapset : jsMapSet acc (pvVal k nx) (pvVal v (nx + pvCount k)) =
        acc ++ [(pvVal k nx, pvVal v (nx + pvCount k))] :=
      jsMapSet_append acc _ _ hfreshk
    have hrest := deserialize_tree_pairs reg opts rest fuel a h1
      (h2 ++ pvHeap k nx ++ pvHeap v (nx + pvCount k))
      (acc ++ [(pvVal k nx, pvVal v (nx + pvCount k))])
      (nx + pvCount k + pvCount v)
      (tb ++ decEntries k none nx ++ decEntries v none (nx + pvCount k))
      hplain.2 hkd.2 hfuel.2 hna
      (fun p hp => by have := hb1 p hp; omega)
      (by omega)
      (by
        intro p hp
        rcases List.mem_append.mp hp with hp | hp
        · rcases List.mem_append.mp hp with hp | hp
          · have := hb2 p hp
            omega
          · have := (pvHeap_mem_bounds k nx p hp).2
            omega
        · exact (pvHeap_mem_bounds v (nx + pvCount k) p hp).2)
      (by
        intro p hp
        rcases List.mem_append.mp hp with hp | hp
        · exact valBelow_mono (by omega) _ (hvb p hp)
        · simp only [List.mem_singleton] at hp
          subst hp
          exact valBelow_mono (by omega) _ (pvVal_valBelow k nx))
      (by
        intro p hp q hq
        rcases List.mem_append.mp hp with hp | hp
        · exact hpk p hp q (by simp [hq])
        · simp only [List.mem_singleton] at hp
          subst hp
          cases hpkk : primKey k with
          | some kv =>
            rw [primKey_pvVal hpkk]
            rw [hpkk] at hkd
            have := hkd.1
            simp only [List.all_eq_true] at this
            have h2 := this q.1 (List.mem_map_of_mem _ hq)
            simpa using h2
          | none =>
            rw [primKey_none_pvVal hpkk]
            exact primKey_eq_vobj_false q.1 nx)
    simp only [serTreePairs, deserializeMapEntriesWith, hk, hv]
    rw [show ((h1 ++ (a, HObject.mapObj acc) :: h2) ++ pvHeap k nx) ++
        pvHeap v (nx + pvCount k) =
        h1 ++ (a, HObject.mapObj acc) ::
          (h2 ++ pvHeap k nx ++ pvHeap v (nx + pvCount k)) by
      simp [List.append_assoc]]
    simp only [mapSetAt, hlookup_middle h1 a _ _ hna, hmapset,
      hset_middle h1 a _ _ _ hna]
    rw [hrest]
    simp only [pvPairsVals, pvPairsHeap, pvCountPairs, decEntriesPairs,
      List.append_assoc, List.cons_append, List.nil_append, Nat.add_assoc]

theorem deserialize_tree_set (reg : List RegEntry) (opts : SerOptions)
    (xs : List PV) :
    ∀ (fuel a : Nat) (h1 h2 : Heap) (acc : List JSValue)
      (nx : Nat) (tb : List (Option Nat × JSValue)),
      plainList xs = true →
      keysDisjoint xs = true →
      pvFuelList xs ≤ fuel →
      (∀ p ∈ h1, p.1 ≠ a) →
      (∀ p ∈ h1, p.1 < nx) →
      a < nx →
      (∀ p ∈ h2, p.1 < nx) →
      (∀ w ∈ acc, valBelow nx w = true) →
      (∀ w ∈ acc, ∀ q ∈ xs, (primKey q == some w) = false) →
      deserializeSetElemsWith
        (fun src stx => doDeserialize reg opts fuel src stx) a
        (serTreeList xs) ⟨h1 ++ (a, .setObj acc) :: h2, nx, tb⟩ =
        .ok ⟨h1 ++ (a, .setObj (acc ++ pvListVals xs nx)) ::
              (h2 ++ pvListHeap xs nx),
          nx + pvCountList xs, tb ++ decEntriesList xs nx⟩ := by
  intro fuel a h1 h2 acc nx tb hplain hkd hfuel hna hb1 hba hb2 hvb hpk
  match xs with
  | [] =>
    simp [serTreeList, deserializeSetElemsWith, pvListVals, pvListHeap,
      pvCountList, decEntriesList]
  | x :: rest =>
    simp only [plainList, Bool.and_eq_true] at hplain
    simp only [keysDisjoint, Bool.and_eq_true] at hkd
    simp only [pvFuelList, Nat.max_le] at hfuel
    have hboundall : ∀ p ∈ h1 ++ (a, HObject.setObj acc) :: h2, p.1 < nx := by
      intro p hp
      rcases List.mem_append.mp hp with hp | hp
      · exact hb1 p hp
      · rcases List.mem_cons.mp hp with rfl | hp
        · exact hba
        · exact hb2 p hp
    have hx := deserialize_tree reg opts x none
      (h1 ++ (a, .setObj acc) :: h2) nx tb fuel hplain.1 hfuel.1 hboundall
    rw [setRootTag_none_serTree] at hx
    have hfreshx : ∀ w ∈ acc, jsStrictEq w (pvVal x nx) = false := by
      intro w hw
      cases hpkk : primKey x with
      | some kv =>
        rw [primKey_pvVal hpkk]
        exact jsStrictEq_of_primKey_false hpkk (hpk w hw x (by simp))
      | none =>
        rw [primKey_none_pvVal hpkk]
        exact jsStrictEq_fresh (hvb w hw)
    have hsetadd : jsSetAdd acc (pvVal x nx) = acc ++ [pvVal x nx] :=
      jsSetAdd_append acc _ hfreshx
    have hrest := deserialize_tree_set reg opts rest fuel a h1
      (h2 ++ pvHeap x nx) (acc ++ [pvVal x nx]) (nx + pvCount x)
      (tb ++ decEntries x none nx)
      hplain.2 hkd.2 hfuel.2 hna
      (fun p hp => by have := hb1 p hp; omega)
      (by omega)
      (by
        intro p hp
        rcases List.mem_append.mp hp with hp | hp
        · have := hb2 p hp
          omega
        · exact (pvHeap_mem_bounds x nx p hp).2)
      (by
        intro w hw
        rcases List.mem_append.mp hw with hw | hw
        · exact valBelow_mono (by omega) _ (hvb w hw)
        · simp only [List.mem_singleton] at hw
          subst hw
          exact pvVal_valBelow x nx)
      (by
        intro w hw q hq
        rcases List.mem_append.mp hw with hw | hw
        · exact hpk w hw q (by simp [hq])
        · simp only [List.mem_singleton] at hw
          subst hw
          cases hpkk : primKey x with
          | some kv =>
            rw [primKey_pvVal hpkk]
            rw [hpkk] at hkd
            have := hkd.1
            simp only [List.all_eq_true] at this
            have h2 := this q hq
            simpa using h2
          | none =>
            rw [primKey_none_pvVal hpkk]
            exact primKey_eq_vobj_false q nx)
    simp only [serTreeList, deserializeSetElemsWith, hx]
    rw [show (h1 ++ (a, HObject.setObj acc) :: h2) ++ pvHeap x nx =
        h1 ++ (a, HObject.setObj acc) :: (h2 ++ pvHeap x nx) by
      simp [List.append_assoc]]
    simp only [setAddAt, hlookup_middle h1 a _ _ hna, hsetadd,
      hset_middle h1 a _ _ _ hna]
    rw [hrest]
    simp only [pvListVals, pvListHeap, pvCountList, decEntriesList,
      List.append_assoc, List.cons_append, List.nil_append, Nat.add_assoc]

theorem deserialize_tree_array (reg : List RegEntry) (opts : SerOptions)
    (xs : List PV) :
    ∀ (fuel a : Nat) (h1 h2 : Heap) (acc : List JSValue)
      (nx : Nat) (tb : List (Option Nat × JSValue)),
      plainList xs = true →
      pvFuelList xs ≤ fuel →
      (∀ p ∈ h1, p.1 ≠ a) →
      (∀ p ∈ h1, p.1 < nx) →
      a < nx →
      (∀ p ∈ h2, p.1 < nx) →
      deserializeArrayItemsWith
        (fun src stx => doDeserialize reg opts fuel src stx) a
        (serTreeList xs) ⟨h1 ++ (a, .arrayObj acc) :: h2, nx, tb⟩ =
        .ok ⟨h1 ++ (a, .arrayObj (acc ++ pvListVals xs nx)) ::
              (h2 ++ pvListHeap xs nx),
          nx + pvCountList xs, tb ++ decEntriesList xs nx⟩ := by
  intro fuel a h1 h2 acc nx tb hplain hfuel hna hb1 hba hb2
  match xs with
  | [] =>
    simp [serTreeList, deserializeArrayItemsWith, pvListVals, pvListHeap,
      pvCountList, decEntriesList]
  | x :: rest =>
    simp only [plainList, Bool.and_eq_true] at hplain
    simp only [pvFuelList, Nat.max_le] at hfuel
    have hboundall : ∀ p ∈ h1 ++ (a, HObject.arrayObj acc) :: h2,
        p.1 < nx := by
      intro p hp
      rcases List.mem_append.mp hp with hp | hp
      · exact hb1 p hp
      · rcases List.mem_cons.mp hp with rfl | hp
        · exact hba
        · exact hb2 p hp
    have hx := deserialize_tree reg opts x none
      (h1 ++ (a, .arrayObj acc) :: h2) nx tb fuel hplain.1 hfuel.1 hboundall
    rw [setRootTag_none_serTree] at hx
    have hrest := deserialize_tree_array reg opts rest fuel a h1
      (h2 ++ pvHeap x nx) (acc ++ [pvVal x nx]) (nx + pvCount x)
      (tb ++ decEntries x none nx)
      hplain.2 hfuel.2 hna
      (fun p hp => by have := hb1 p hp; omega)
      (by omega)
      (by
        intro p hp
        rcases List.mem_append.mp hp with hp | hp
        · have := hb2 p hp
          omega
        · exact (pvHeap_mem_bounds x nx p hp).2)
    simp only [serTreeList, deserializeArrayItemsWith, hx]
    rw [show (h1 ++ (a, HObject.arrayObj acc) :: h2) ++ pvHeap x nx =
        h1 ++ (a, HObject.arrayObj acc) :: (h2 ++ pvHeap x nx) by
      simp [List.append_assoc]]
    simp only [arrayPushAt, hlookup_middle h1 a _ _ hna,
      hset_middle h1 a _ _ _ hna]
    rw [hrest]
    simp only [pvListVals, pvListHeap, pvCountList, decEntriesList,
      List.append_assoc, List.cons_append, List.nil_append, Nat.add_assoc]

theorem deserialize_tree_fields (reg : List RegEntry) (opts : SerOptions)
    (fs : List (String × PV)) :
    ∀ (fuel a : Nat) (oc : Option CtorRef) (ch : List Nat)
      (h1 h2 : Heap) (acc : List (String × JSValue))
      (nx : Nat) (tb : List (Option Nat × JSValue)),
      plainFields fs = true →
      nodupStr (List.map (fun q => q.1) fs) = true →
      pvFuelFields fs ≤ fuel →
      (∀ p ∈ h1, p.1 ≠ a) →
      (∀ p ∈ h1, p.1 < nx) →
      a < nx →
      (∀ p ∈ h2, p.1 < nx) →
      (∀ q ∈ fs, ∀ kv ∈ acc, kv.1 ≠ q.1) →
      deserializeFieldsWith
        (fun src stx => doDeserialize reg opts fuel src stx) a
        (serTreeFields fs) ⟨h1 ++ (a, .objectObj oc ch acc) :: h2, nx, tb⟩ =
        .ok ⟨h1 ++ (a, .objectObj oc ch (acc ++ pvFieldsVals fs nx)) ::
              (h2 ++ pvFieldsHeap fs nx),
          nx + pvCountFields fs, tb ++ decEntriesFields fs nx⟩ := by
  intro fuel a oc ch h1 h2 acc nx tb hplain hnd hfuel hna hb1 hba hb2 hfr
  match fs with
  | [] =>
    simp [serTreeFields, deserializeFieldsWith, pvFieldsVals, pvFieldsHeap,
      pvCountFields, decEntriesFields]
  | (k, v) :: rest =>
    simp only [plainFields, Bool.and_eq_true] at hplain
    simp only [List.map_cons, nodupStr, Bool.and_eq_true] at hnd
    simp only [pvFuelFields, Nat.max_le] at hfuel
    have hboundall : ∀ p ∈ h1 ++ (a, HObject.objectObj oc ch acc) :: h2,
        p.1 < nx := by
      intro p hp
      rcases List.mem_append.mp hp with hp | hp
      · exact hb1 p hp
      · rcases List.mem_cons.mp hp with rfl | hp
        · exact hba
        · exact hb2 p hp
    have hv := deserialize_tree reg opts v none
      (h1 ++ (a, .objectObj oc ch acc) :: h2) nx tb fuel hplain.1 hfuel.1
      hboundall
    rw [setRootTag_none_serTree] at hv
    have hfieldset : jsFieldSet acc k (pvVal v nx) =
        acc ++ [(k, pvVal v nx)] :=
      jsFieldSet_append acc k _ (fun kv hkv => hfr (k, v) (by simp) kv hkv)
    have hrest := deserialize_tree_fields reg opts rest fuel a oc ch h1
      (h2 ++ pvHeap v nx) (acc ++ [(k, pvVal v nx)]) (nx + pvCount v)
      (tb ++ decEntries v none nx)
      hplain.2 hnd.2 hfuel.2 hna
      (fun p hp => by have := hb1 p hp; omega)
      (by omega)
      (by
        intro p hp
        rcases List.mem_append.mp hp with hp | hp
        · have := hb2 p hp
          omega
        · exact (pvHeap_mem_bounds v nx p hp).2)
      (by
        intro q hq kv hkv
        rcases List.mem_append.mp hkv with hkv | hkv
        · exact hfr q (by simp [hq]) kv hkv
        · simp only [List.mem_singleton] at hkv
          subst hkv
          have hthis := hnd.1
          intro hcon
          have hck : k = q.1 := hcon
          rw [hck] at hthis
          have hmem : q.1 ∈ List.map (fun q2 => q2.1) rest :=
            List.mem_map_of_mem (fun q2 => q2.1) hq
          simp [hmem] at hthis)
    simp only [serTreeFields, deserializeFieldsWith, hv]
    rw [show (h1 ++ (a, HObject.objectObj oc ch acc) :: h2) ++ pvHeap v nx =
        h1 ++ (a, HObject.objectObj oc ch acc) :: (h2 ++ pvHeap v nx) by
      simp [List.append_assoc]]
    simp only [fieldSetAt, hlookup_middle h1 a _ _ hna, hfieldset,
      hset_middle h1 a _ _ _ hna]
    rw [hrest]
    simp only [pvFieldsVals, pvFieldsHeap, pvCountFields, decEntriesFields,
      List.append_assoc, List.cons_append, List.nil_append, Nat.add_assoc]

end

theorem assignedIdOf_pushed (pv : PV) (n a : Nat) :
    assignedIdOf (pushedEntries pv n) a = none := by
  unfold assignedIdOf
  cases hfind : List.find? (fun p => p.1 == a) (pushedEntries pv n) with
  | none => rfl
  | some p =>
    have hmem := List.mem_of_find?_eq_some hfind
    exact (pushedEntries_spec pv n p hmem).2

theorem assignedIdOf_cons_ne (b : Nat) (o : Option Nat)
    (rest : List (Nat × Option Nat)) (a : Nat) (h : (b == a) = false) :
    assignedIdOf ((b, o) :: rest) a = assignedIdOf rest a := by
  simp [assignedIdOf, List.find?_cons, h]

theorem assignedIdOf_all_none (l : List (Nat × Option Nat)) (a : Nat)
    (h : ∀ p ∈ l, p.2 = none) : assignedIdOf l a = none := by
  unfold assignedIdOf
  cases hfind : List.find? (fun p => p.1 == a) l with
  | none => rfl
  | some p =>
    have hmem := List.mem_of_find?_eq_some hfind
    exact h p hmem

theorem pvShareable_val {X : PV} (h : pvShareable X = true) (n : Nat) :
    pvVal X n = .vobj n := by
  cases X <;> simp_all [pvShareable, pvVal]

theorem pvShareable_fuel {X : PV} (h : pvShareable X = true) :
    2 ≤ pvFuel X := by
  cases X <;> simp_all [pvShareable, pvFuel]

theorem pushedEntries_shareable {X : PV} (h : pvShareable X = true) (n : Nat) :
    ∃ tail, pushedEntries X n = (n, none) :: tail ∧
      ∀ p ∈ tail, (n + 1 ≤ p.1 ∧ p.1 < n + pvCount X) ∧ p.2 = none := by
  cases X with
  | pregexp pt fl => exact ⟨[], rfl, by simp⟩
  | pmap es =>
    refine ⟨pushedPairs es (n + 1), rfl, ?_⟩
    intro p hp
    have h2 := pushedPairs_spec es (n + 1) p hp
    refine ⟨⟨h2.1.1, ?_⟩, h2.2⟩
    have h3 := h2.1.2
    simp only [pvCount]
    omega
  | pset xs =>
    refine ⟨pushedList xs (n + 1), rfl, ?_⟩
    intro p hp
    have h2 := pushedList_spec xs (n + 1) p hp
    refine ⟨⟨h2.1.1, ?_⟩, h2.2⟩
    have h3 := h2.1.2
    simp only [pvCount]
    omega
  | parray xs =>
    refine ⟨pushedList xs (n + 1), rfl, ?_⟩
    intro p hp
    have h2 := pushedList_spec xs (n + 1) p hp
    refine ⟨⟨h2.1.1, ?_⟩, h2.2⟩
    have h3 := h2.1.2
    simp only [pvCount]
    omega
  | precord fs =>
    refine ⟨pushedFields fs (n + 1), rfl, ?_⟩
    intro p hp
    have h2 := pushedFields_spec fs (n + 1) p hp
    refine ⟨⟨h2.1.1, ?_⟩, h2.2⟩
    have h3 := h2.1.2
    simp only [pvCount]
    omega
  | _ => simp [pvShareable] at h

theorem decEntries_shareable {X : PV} (h : pvShareable X = true)
    (r : Option Nat) (n : Nat) :
    ∃ tail, decEntries X r n = (r, JSValue.vobj n) :: tail ∧
      ∀ p ∈ tail, p.1 = none := by
  cases X with
  | pregexp pt fl => exact ⟨[], rfl, by simp⟩
  | pmap es =>
    exact ⟨decEntriesPairs es (n + 1), rfl,
      fun p hp => decEntriesPairs_none_key es (n + 1) p hp⟩
  | pset xs =>
    exact ⟨decEntriesList xs (n + 1), rfl,
      fun p hp => decEntriesList_none_key xs (n + 1) p hp⟩
  | parray xs =>
    exact ⟨decEntriesList xs (n + 1), rfl,
      fun p hp => decEntriesList_none_key xs (n + 1) p hp⟩
  | precord fs =>
    exact ⟨decEntriesFields fs (n + 1), rfl,
      fun p hp => decEntriesFields_none_key fs (n + 1) p hp⟩
  | _ => simp [pvShareable] at h

/-- Meeting the same shareable identity a second time: the helper's
`findAlreadySerialized` hits, assigns the next counter value to the
existing entry, and returns a reference node. -/
theorem serialize_second_occurrence (reg : List RegEntry)
    (opts : SerOptions) (X : PV) (hsh : pvShareable X = true) (H : Heap)
    (hsel : hlookup H 1 = hlookup (pvHeap X 1) 1) (f : Nat)
    (tail : List (Nat × Option Nat)) (c : Nat) :
    doSerialize reg opts H (f + 2) (.vobj 1)
        ⟨(0, none) :: (1, none) :: tail, c⟩ =
      .ok (.sref c, ⟨(0, none) :: (1, some c) :: tail, c + 1⟩) := by
  have hfind2 : findAlreadySerialized 1
      ⟨(0, none) :: (1, none) :: tail, c⟩ =
      some (.sref c, ⟨(0, none) :: (1, some c) :: tail, c + 1⟩) := by
    unfold findAlreadySerialized
    simp [List.find?_cons, assignFirst]
  cases X with
  | pmap es =>
    have hsel2 : hlookup H 1 = some (.mapObj (pvPairsVals es 2)) := by
      rw [hsel]
      simp only [pvHeap]
      exact hlookup_cons_self 1 _ _
    have hcl : classify H (.vobj 1) = .builtinK := by
      simp [classify, isPrimitiveType, isSymbol, isFunction, isBuiltInType,
        hsel2]
    simp [doSerialize, hcl, serializeBuiltInType, hfind2]
  | pset xs =>
    have hsel2 : hlookup H 1 = some (.setObj (pvListVals xs 2)) := by
      rw [hsel]
      simp only [pvHeap]
      exact hlookup_cons_self 1 _ _
    have hcl : classify H (.vobj 1) = .builtinK := by
      simp [classify, isPrimitiveType, isSymbol, isFunction, isBuiltInType,
        hsel2]
    simp [doSerialize, hcl, serializeBuiltInType, hfind2]
  | pregexp pt fl =>
    have hsel2 : hlookup H 1 = some (.regexpObj pt fl) := by
      rw [hsel]
      simp only [pvHeap]
      exact hlookup_cons_self 1 _ _
    have hcl : classify H (.vobj 1) = .builtinK := by
      simp [classify, isPrimitiveType, isSymbol, isFunction, isBuiltInType,
        hsel2]
    simp [doSerialize, hcl, serializeBuiltInType, hfind2]
  | parray xs =>
    have hsel2 : hlookup H 1 = some (.arrayObj (pvListVals xs 2)) := by
      rw [hsel]
      simp only [pvHeap]
      exact hlookup_cons_self 1 _ _
    have hcl : classify H (.vobj 1) = .arrayK := by
      simp [classify, isPrimitiveType, isSymbol, isFunction, isBuiltInType,
        isArrayValue, hsel2]
    simp [doSerialize, hcl, serializeArray, hfind2]
  | precord fs =>
    have hsel2 : hlookup H 1 = some (.objectObj (some objectCtor)
        [objectCtor.cid] (pvFieldsVals fs 2)) := by
      rw [hsel]
      simp only [pvHeap]
      exact hlookup_cons_self 1 _ _
    have hcl : classify H (.vobj 1) = .recordK := by
      simp [classify, isPrimitiveType, isSymbol, isFunction, isBuiltInType,
        isArrayValue, isObjectLiteral, hsel2, objectCtor]
    simp [doSerialize, hcl, serializeObjectLiteral, hfind2]
  | _ => simp [pvShareable] at hsh

/-- C3: serializing the record `{x:10, y:20}` whose `circular` field
points to the record itself yields the record node with id 0, fields
`x:10`, `y:20` and `circular` a `ReferenceNode` with id 0; decoding
that node yields the record `r` at address 0 whose `circular` field is
`.vobj 0 = r` itself — the identity `r.circular === r`. -/
theorem c3_circular_record_example :
    serializeCall [] noOptions circularRecordHeap 9 0 (.vobj 0) =
      .ok (.sobject [("x", .snum 10), ("y", .snum 20), ("circular", .sref 0)]
        (some 0), 1) ∧
    deserializeCall [] noOptions 9
        (.sobject [("x", .snum 10), ("y", .snum 20), ("circular", .sref 0)]
          (some 0)) =
      .ok (.vobj 0,
        ⟨[(0, .objectObj (some objectCtor) [objectCtor.cid]
            [("x", .vnum 10), ("y", .vnum 20), ("circular", .vobj 0)])],
         1, [(some 0, .vobj 0)]⟩) :=
  ⟨by with_unfolding_all rfl, by with_unfolding_all rfl⟩

/-- C7: `deserializeReference` fails with the dangling-reference error
exactly when no instance-table entry carries the requested id, and
otherwise returns the already-materialized result of the (first) entry
registered for that id, leaving the state untouched. -/
theorem c7_reference_resolution (i : Nat) (st : DeSt) :
    ((∀ p ∈ st.table, p.1 ≠ some i) →
      deserializeReference i st =
        .error (.jsError ("Cannot find reference with id " ++ toString i ++ "."))) ∧
    (∀ entry, List.find? (fun p => p.1 == some i) st.table = some entry →
      deserializeReference i st = .ok (entry.2, st)) := by
  constructor
  · intro hnone
    unfold deserializeReference
    rw [List.find?_eq_none.mpr]
    intro p hp
    simpa using hnone p hp
  · intro entry hfind
    unfold deserializeReference
    rw [hfind]

/-- Witness for C7 at a concrete table. -/
theorem c7_reference_resolution_witness :
    deserializeReference 4 ⟨[], 0, [(some 3, .vnum 7)]⟩ =
      .error (.jsError "Cannot find reference with id 4.") ∧
    deserializeReference 3 ⟨[], 0, [(some 3, .vnum 7)]⟩ =
      .ok (.vnum 7, ⟨[], 0, [(some 3, .vnum 7)]⟩) :=
  ⟨(c7_reference_resolution 4 ⟨[], 0, [(some 3, .vnum 7)]⟩).1 (by decide),
   (c7_reference_resolution 3 ⟨[], 0, [(some 3, .vnum 7)]⟩).2
     (some 3, .vnum 7) rfl⟩

/-- C1 counterexample: the claim fails at `v = /a/g`, a value built
from one recognized built-in alone.  `serialize` stores
`v.toString().slice(1, -1) = "a/"`, so `deserialize` reconstructs
`new RegExp("a/")` — pattern `"a/"`, no flags — which is not deeply
equal to `v` (pattern `"a"`, flags `"g"`). -/
theorem c1_counterexample :
    pvVal (.pregexp "a" "g") 0 = .vobj 0 ∧
    pvHeap (.pregexp "a" "g") 0 = flaggedRegexpHeap ∧
    serializeCall [] noOptions flaggedRegexpHeap 9 0 (.vobj 0) =
      .ok (.sregexp "a/" none, 0) ∧
    deserializeCall [] noOptions 9 (.sregexp "a/" none) =
      .ok (.vobj 0, ⟨[(0, .regexpObj "a/" "")], 1, [(none, .vobj 0)]⟩) ∧
    deepEqB flaggedRegexpHeap [(0, .regexpObj "a/" "")] 9
      (.vobj 0) (.vobj 0) = false := by
  refine ⟨rfl, by with_unfolding_all rfl, by with_unfolding_all rfl,
    by with_unfolding_all rfl, by with_unfolding_all rfl⟩

/-- C2 counterexample: the claim fails for Dates.  The input array
holds the same Date identity in both slots, yet the encoded form holds
two full Date nodes and no `ReferenceNode` (the Date branch never
enters the visited-table), and decoding yields two distinct Date
identities (addresses 1 and 2). -/
theorem c2_counterexample :
    serializeCall [] noOptions sharedDateHeap 9 0 (.vobj 1) =
      .ok (.sarray [.sdate 0 none, .sdate 0 none] none, 0) ∧
    countRefs (.sarray [.sdate 0 none, .sdate 0 none] none) = 0 ∧
    deserializeCall [] noOptions 9 (.sarray [.sdate 0 none, .sdate 0 none] none) =
      .ok (.vobj 0,
        ⟨[(0, .arrayObj [.vobj 1, .vobj 2]), (1, .dateObj 0), (2, .dateObj 0)],
         3, [(none, .vobj 0)]⟩) ∧
    JSValue.vobj 1 ≠ JSValue.vobj 2 := by
  refine ⟨by with_unfolding_all rfl, by with_unfolding_all rfl,
    by with_unfolding_all rfl, by decide⟩

/-- C1 amended: the round trip is the identity exactly on plain
trees — values built from primitives, plain records, arrays, Maps,
Sets, flag-free RegExps and whole-second Dates, with no sharing
between positions, distinct map keys, distinct set elements and
distinct record field names.  On such a value serialize emits the
value's tree with every id slot empty, and deserialize rebuilds the
same value over the identical heap layout. -/
theorem c1_roundtrip_amended (reg : List RegEntry) (opts : SerOptions)
    (pv : PV) (fuel c : Nat) (hplain : plainB pv = true)
    (hfuel : pvFuel pv ≤ fuel) :
    serializeCall reg opts (pvHeap pv 0) fuel c (pvVal pv 0) =
      .ok (serTree pv, c) ∧
    deserializeCall reg opts fuel (serTree pv) =
      .ok (pvVal pv 0,
        ⟨pvHeap pv 0, pvCount pv, decEntries pv none 0⟩) := by
  constructor
  · have hser := serialize_tree reg opts pv 0 (pvHeap pv 0) fuel [] c
      (fun a h1 h2 => rfl) (by simp) hfuel
    have hpatch : patch (assignedIdOf (pushedEntries pv 0))
        (preSerTree pv 0) = serTree pv :=
      patch_preSerTree_none pv 0 (assignedIdOf (pushedEntries pv 0))
        (fun a _ => assignedIdOf_pushed pv 0 a)
    unfold serializeCall
    simp only [hser, List.nil_append]
    rw [hpatch]
  · have hdes := deserialize_tree reg opts pv none [] 0 [] fuel hplain
      hfuel (by simp)
    rw [setRootTag_none_serTree] at hdes
    unfold deserializeCall
    simpa using hdes

/-- C2 amended: identity sharing holds for every shareable identity —
records, arrays, Maps, Sets and RegExps, the kinds the visited-table
tracks — but not for Dates (the Date branch never pushes, so a shared
Date is re-encoded in full at every occurrence and decodes to distinct
identities) nor for symbols.  On a record whose two fields hold the
same shareable plain object, serialize emits one full node tagged with
the freshly assigned id plus one ReferenceNode to it, and deserialize
restores both fields to a single shared new identity. -/
theorem c2_amended_identity_sharing (reg : List RegEntry)
    (opts : SerOptions) (X : PV) (fuel c : Nat)
    (hsh : pvShareable X = true) (hplain : plainB X = true)
    (hfuel : pvFuel X + 2 ≤ fuel) :
    serializeCall reg opts
      ((0, .objectObj (some objectCtor) [objectCtor.cid]
          [("a", pvVal X 1), ("b", pvVal X 1)]) :: pvHeap X 1)
      fuel c (.vobj 0) =
      .ok (.sobject
          [("a", setRootTag (some c) (serTree X)), ("b", .sref c)] none,
        c + 1) ∧
    deserializeCall reg opts fuel
      (.sobject [("a", setRootTag (some c) (serTree X)), ("b", .sref c)]
        none) =
      .ok (.vobj 0,
        ⟨(0, .objectObj (some objectCtor) [objectCtor.cid]
            [("a", .vobj 1), ("b", .vobj 1)]) :: pvHeap X 1,
         1 + pvCount X,
         (none, .vobj 0) :: decEntries X (some c) 1⟩) := by
  obtain ⟨g, rfl⟩ : ∃ g, fuel = g + 4 :=
    ⟨fuel - 4, by have := pvShareable_fuel hsh; omega⟩
  have hfX : pvFuel X ≤ g + 2 := by omega
  have hval := pvShareable_val hsh 1
  obtain ⟨tail, htail, htprop⟩ := pushedEntries_shareable hsh 1
  obtain ⟨tailD, htailD, htDnone⟩ := decEntries_shareable hsh (some c) 1
  rw [hval]
  constructor
  · -- encode
    set H : Heap := (0, HObject.objectObj (some objectCtor)
      [objectCtor.cid] [("a", JSValue.vobj 1), ("b", JSValue.vobj 1)]) ::
      pvHeap X 1 with hH
    have hlook0 : hlookup H 0 = some (.objectObj (some objectCtor)
        [objectCtor.cid] [("a", .vobj 1), ("b", .vobj 1)]) := by
      rw [hH]
      exact hlookup_cons_self 0 _ _
    have hcl0 : classify H (.vobj 0) = .recordK := by
      simp [classify, isPrimitiveType, isSymbol, isFunction, isBuiltInType,
        isArrayValue, isObjectLiteral, hlook0, objectCtor]
    have hagree : heapAgree H (pvHeap X 1) 1 (1 + pvCount X) := by
      intro a h1 h2
      rw [hH]
      exact hlookup_cons_ne 0 a _ _ (by omega)
    have hsel : hlookup H 1 = hlookup (pvHeap X 1) 1 := by
      rw [hH]
      exact hlookup_cons_ne 0 1 _ _ (by omega)
    have hA := serialize_tree reg opts X 1 H (g + 2) [(0, none)] c hagree
      (by simp) hfX
    rw [hval, htail] at hA
    simp only [List.singleton_append] at hA
    have hB := serialize_second_occurrence reg opts X hsh H hsel g tail c
    have hfold : serializeFieldsWith
        (fun v stx => doSerialize reg opts H (g + 2) v stx)
        [("a", .vobj 1), ("b", .vobj 1)] ⟨[(0, none)], c⟩ =
        .ok ([("a", preSerTree X 1), ("b", .sref c)],
          ⟨(0, none) :: (1, some c) :: tail, c + 1⟩) := by
      simp only [serializeFieldsWith, hA, hB]
    have hfind0 : findAlreadySerialized 0 ⟨[], c⟩ = none := rfl
    have hdo : doSerialize reg opts H (g + 4) (.vobj 0) ⟨[], c⟩ =
        .ok (.sobject [("a", preSerTree X 1), ("b", .sref c)] 0,
          ⟨(0, none) :: (1, some c) :: tail, c + 1⟩) := by
      simp only [doSerialize, hcl0, serializeObjectLiteral, hfind0, hlook0,
        List.nil_append, hfold]
    have hf0 : assignedIdOf ((0, none) :: (1, some c) :: tail) 0 = none := by
      simp [assignedIdOf, List.find?_cons]
    have hf1 : assignedIdOf ((0, none) :: (1, some c) :: tail) 1 =
        some c := by
      simp [assignedIdOf, List.find?_cons]
    have hfge : ∀ a, 2 ≤ a →
        assignedIdOf ((0, none) :: (1, some c) :: tail) a = none := by
      intro a ha
      rw [assignedIdOf_cons_ne 0 none _ a (beq_eq_false_iff_ne.mpr
          (by omega)),
        assignedIdOf_cons_ne 1 (some c) _ a (beq_eq_false_iff_ne.mpr
          (by omega))]
      exact assignedIdOf_all_none tail a (fun p hp => (htprop p hp).2)
    have hproot := patch_preSerTree_root X 1
      (assignedIdOf ((0, none) :: (1, some c) :: tail)) (some c) hf1
      (fun a ha => hfge a (by omega))
    unfold serializeCall
    simp only [hdo, patch, patchFields, hproot, hf0]
  · -- decode
    have hdes := deserialize_tree reg opts X (some c)
      [(0, .objectObj (some objectCtor) [objectCtor.cid] [])] 1
      [(none, .vobj 0)] (g + 2) hplain hfX (by simp)
    rw [hval] at hdes
    simp only [List.singleton_append] at hdes
    have hfsA : fieldSetAt 0 "a" (.vobj 1)
        ⟨(0, .objectObj (some objectCtor) [objectCtor.cid] []) ::
            pvHeap X 1,
         1 + pvCount X, (none, .vobj 0) :: decEntries X (some c) 1⟩ =
        ⟨(0, .objectObj (some objectCtor) [objectCtor.cid]
            [("a", .vobj 1)]) :: pvHeap X 1,
         1 + pvCount X, (none, .vobj 0) :: decEntries X (some c) 1⟩ := by
      simp [fieldSetAt, hlookup_cons_self, hset, jsFieldSet]
    have hrefB : doDeserialize reg opts (g + 2) (.sref c)
        ⟨(0, .objectObj (some objectCtor) [objectCtor.cid]
            [("a", .vobj 1)]) :: pvHeap X 1,
         1 + pvCount X, (none, .vobj 0) :: decEntries X (some c) 1⟩ =
        .ok (.vobj 1,
          ⟨(0, .objectObj (some objectCtor) [objectCtor.cid]
              [("a", .vobj 1)]) :: pvHeap X 1,
           1 + pvCount X,
           (none, .vobj 0) :: decEntries X (some c) 1⟩) := by
      rw [htailD]
      have hp1 : ((none : Option Nat) == some c) = false := rfl
      have hp2 : ((some c : Option Nat) == some c) = true := by simp
      simp only [doDeserialize, deserializeReference, List.find?_cons, hp1,
        hp2]
    have hfsB : fieldSetAt 0 "b" (.vobj 1)
        ⟨(0, .objectObj (some objectCtor) [objectCtor.cid]
            [("a", .vobj 1)]) :: pvHeap X 1,
         1 + pvCount X, (none, .vobj 0) :: decEntries X (some c) 1⟩ =
        ⟨(0, .objectObj (some objectCtor) [objectCtor.cid]
            [("a", .vobj 1), ("b", .vobj 1)]) :: pvHeap X 1,
         1 + pvCount X, (none, .vobj 0) :: decEntries X (some c) 1⟩ := by
      simp [fieldSetAt, hlookup_cons_self, hset, jsFieldSet]
    have hfoldD : deserializeFieldsWith
        (fun src stx => doDeserialize reg opts (g + 2) src stx) 0
        [("a", setRootTag (some c) (serTree X)), ("b", .sref c)]
        ⟨[(0, .objectObj (some objectCtor) [objectCtor.cid] [])], 1,
         [(none, .vobj 0)]⟩ =
        .ok ⟨(0, .objectObj (some objectCtor) [objectCtor.cid]
            [("a", .vobj 1), ("b", .vobj 1)]) :: pvHeap X 1,
          1 + pvCount X,
          (none, .vobj 0) :: decEntries X (some c) 1⟩ := by
      simp only [deserializeFieldsWith, hdes, hfsA, hrefB, hfsB]
    unfold deserializeCall
    simp only [doDeserialize]
    simp only [deserializeObjectLiteral, allocD, List.nil_append,
      Nat.zero_add, hfoldD]

theorem c2_amended_identity_sharing_witness :
    pvShareable sharedExample = true ∧
    plainB sharedExample = true ∧
    pvFuel sharedExample + 2 ≤ 9 ∧
    (serializeCall [] noOptions
        ((0, .objectObj (some objectCtor) [objectCtor.cid]
            [("a", pvVal sharedExample 1), ("b", pvVal sharedExample 1)]) ::
          pvHeap sharedExample 1) 9 0 (.vobj 0) =
      .ok (.sobject
          [("a", setRootTag (some 0) (serTree sharedExample)),
           ("b", .sref 0)] none, 0 + 1) ∧
     deserializeCall [] noOptions 9
        (.sobject [("a", setRootTag (some 0) (serTree sharedExample)),
          ("b", .sref 0)] none) =
      .ok (.vobj 0,
        ⟨(0, .objectObj (some objectCtor) [objectCtor.cid]
            [("a", .vobj 1), ("b", .vobj 1)]) :: pvHeap sharedExample 1,
         1 + pvCount sharedExample,
         (none, .vobj 0) :: decEntries sharedExample (some 0) 1⟩)) :=
  ⟨by decide, by decide, by decide,
   c2_amended_identity_sharing [] noOptions sharedExample 9 0 (by decide)
     (by decide) (by decide)⟩

theorem c1_roundtrip_amended_witness :
    plainB roundTripExample = true ∧
    pvFuel roundTripExample ≤ 9 ∧
    (serializeCall [] noOptions (pvHeap roundTripExample 0) 9 0
        (pvVal roundTripExample 0) =
      .ok (serTree roundTripExample, 0) ∧
    deserializeCall [] noOptions 9 (serTree roundTripExample) =
      .ok (pvVal roundTripExample 0,
        ⟨pvHeap roundTripExample 0, pvCount roundTripExample,
         decEntries roundTripExample none 0⟩)) :=
  ⟨by decide, by decide,
   c1_roundtrip_amended [] noOptions roundTripExample 9 0 (by decide)
     (by decide)⟩

/-- C4 counterexample: registry `[{name: "X", ctor: A}]`, value of
class `B extends A`.  The claim's name comparison (runtime type name
`"B"` against alias `"X"` and constructor name `"A"`) matches no entry
and predicts an UnregisteredType failure; the code selects the entry
by `instanceof` and succeeds, emitting an `InstanceNode` whose class
is the alias `"X"`. -/
theorem c4_counterexample :
    specNameSelect aliasedRegistry "B" = none ∧
    serializeCall aliasedRegistry noOptions subclassHeap 9 0 (.vobj 0) =
      .ok (.sinstance "X" [] none, 0) := by
  refine ⟨by with_unfolding_all rfl, by with_unfolding_all rfl⟩

/-- C4 amended: on first meeting a constructed instance the registry
entry is selected by testing, in registration order, whether the value
is an `instanceof` the entry's constructor.  If no entry's constructor
matches, serialize throws the UnregisteredType error interpolating the
value's own constructor name.  When an entry matches, its alias-name
(or, absent that, the value's constructor name) becomes the emitted
className: the custom-serializer path wraps the hook's payload in a
CustomNode, the default path encodes field by field into an
InstanceNode. -/
theorem c4_amended_selection_by_instanceof (reg : List RegEntry)
    (opts : SerOptions) (h : Heap) (fuel a : Nat) (ctor : CtorRef)
    (chain : List Nat) (fields : List (String × JSValue)) (st : SerSt)
    (hv : hlookup h a = some (.objectObj (some ctor) chain fields))
    (hfresh : ∀ p ∈ st.visited, p.1 ≠ a) :
    (List.find? (fun e => chain.contains e.ctorId) reg = none →
      serializeInstance reg opts h (fuel + 1) a st =
        .error (.jsError ("Cannot serialize object with constructor " ++
          ctor.cname ++
          ". Specify a custom serialize function to handle this type."))) ∧
    (∀ entry, List.find? (fun e => chain.contains e.ctorId) reg = some entry →
      entry.serializer = none →
      serializeInstance reg opts h (fuel + 1) a st =
        (match serializeFieldsWith
            (fun v stx => doSerialize reg opts h fuel v stx) fields
            ⟨st.visited ++ [(a, none)], st.counter⟩ with
         | .error e => .error e
         | .ok (kvs, st3) =>
           .ok (.sinstance
             (match entry.name with
              | some nm => nm
              | none => ctor.cname) kvs a, st3))) ∧
    (∀ entry hook,
      List.find? (fun e => chain.contains e.ctorId) reg = some entry →
      entry.serializer = some hook →
      serializeInstance reg opts h (fuel + 1) a st =
        (match hook (.vobj a) ⟨st.visited ++ [(a, none)], st.counter⟩
            (fun src stx => doSerialize reg opts h fuel src stx) with
         | .error e => .error e
         | .ok (payload, st3) =>
           .ok (.scustom
             (match entry.name with
              | some nm => nm
              | none => ctor.cname) payload a, st3))) := by
  have hfind := findAlreadySerialized_none a st hfresh
  refine ⟨?_, ?_, ?_⟩
  · intro hnone
    simp only [serializeInstance, hfind, hv, hnone]
  · intro entry hsome hser
    cases hn : entry.name <;>
      simp only [serializeInstance, hfind, hv, hsome, hser, classNameFor, hn]
  · intro entry hook hsome hser
    cases hn : entry.name <;>
      simp only [serializeInstance, hfind, hv, hsome, hser, classNameFor, hn]

/-- Witness for C4's amended theorem at the concrete registry of the
counterexample. -/
theorem c4_amended_selection_by_instanceof_witness :
    serializeInstance aliasedRegistry noOptions subclassHeap 2 0 ⟨[], 0⟩ =
      .ok (.sinstance "X" [] 0, ⟨[(0, none)], 0⟩) := by
  have := (c4_amended_selection_by_instanceof aliasedRegistry noOptions
    subclassHeap 1 0 ⟨7, "B"⟩ [7, 5] [] ⟨[], 0⟩ (by with_unfolding_all rfl)
    (by decide)).2.1 ⟨some "X", 5, "A", none, none⟩ (by with_unfolding_all rfl)
    rfl
  simpa [serializeFieldsWith] using this

/-- C5 counterexample: decoding an `InstanceNode` whose className
matches no registry entry does not fail with any error at all — the
unmatched branch falls through and the call returns `undefined`. -/
theorem c5_counterexample :
    deserializeCall [] noOptions 9 (.sinstance "Nope" [] none) =
      .ok (.vundef, ⟨[], 0, []⟩) := by
  with_unfolding_all rfl

/-- C5 amended: an `InstanceNode` with an unmatched className yields
`undefined` (no UnknownType error exists); a `CustomNode` with an
unmatched className, or whose matched entry lacks a deserializer hook,
fails with the one missing-deserializer error — the code does not
distinguish the two situations. -/
theorem c5_amended_unknown_class (reg : List RegEntry) (opts : SerOptions)
    (fuel : Nat) (cls : String) (props : List (String × Ser))
    (payload : Ser) (tag : Option Nat) (st : DeSt) :
    (List.find? (fun e => e.name == some cls || e.ctorName == cls) reg = none →
      deserializeInstance reg opts (fuel + 1) cls props tag st =
        .ok (.vundef, st)) ∧
    (List.find? (fun e => e.name == some cls || e.ctorName == cls) reg = none →
      deserializeCustomSerializedObject reg opts (fuel + 1) cls payload tag st =
        .error (.jsError ("Missing deserializer for custom deserialized object of type custom and ctor " ++ cls ++ "."))) ∧
    (∀ entry,
      List.find? (fun e => e.name == some cls || e.ctorName == cls) reg =
        some entry →
      entry.deserializer = none →
      deserializeCustomSerializedObject reg opts (fuel + 1) cls payload tag st =
        .error (.jsError ("Missing deserializer for custom deserialized object of type custom and ctor " ++ cls ++ "."))) := by
  refine ⟨?_, ?_, ?_⟩
  · intro hnone; simp [deserializeInstance, hnone]
  · intro hnone; simp [deserializeCustomSerializedObject, hnone]
  · intro entry hsome hde
    simp [deserializeCustomSerializedObject, hsome, hde]

/-- Witness for C5's amended theorem on the empty registry. -/
theorem c5_amended_unknown_class_witness :
    deserializeInstance [] noOptions 1 "Nope" [] none ⟨[], 0, []⟩ =
      .ok (.vundef, ⟨[], 0, []⟩) ∧
    deserializeCustomSerializedObject [] noOptions 1 "Nope" (.snum 1) none
        ⟨[], 0, []⟩ =
      .error (.jsError "Missing deserializer for custom deserialized object of type custom and ctor Nope.") :=
  ⟨(c5_amended_unknown_class [] noOptions 0 "Nope" [] (.snum 1) none
      ⟨[], 0, []⟩).1 rfl,
   (c5_amended_unknown_class [] noOptions 0 "Nope" [] (.snum 1) none
      ⟨[], 0, []⟩).2.1 rfl⟩

/-- C6 counterexample: the id counter survives across top-level calls
on the same serializer instance.  A first call on the circular record
assigns id 0 and leaves the counter at 1; the second top-level call on
the same instance assigns id 1 — not 0 — to its first revisited node. -/
theorem c6_counterexample :
    serializeCall [] noOptions circularRecordHeap 9 0 (.vobj 0) =
      .ok (.sobject [("x", .snum 10), ("y", .snum 20), ("circular", .sref 0)]
        (some 0), 1) ∧
    serializeCall [] noOptions circularRecordHeap 9 1 (.vobj 0) =
      .ok (.sobject [("x", .snum 10), ("y", .snum 20), ("circular", .sref 1)]
        (some 1), 2) ∧
    rootTagOf (.sobject [("x", .snum 10), ("y", .snum 20), ("circular", .sref 1)]
      (some 1)) ≠ some 0 := by
  refine ⟨by with_unfolding_all rfl, by with_unfolding_all rfl, by decide⟩

/-- C6 amended: within one top-level call the visited-table is fresh
(`doSerialize(source, [])`) and ids are assigned monotonically from
the counter's current value — but the counter itself lives in the
factory closure and persists: a call entered with counter `c` labels
the circular record with id `c` and hands `c + 1` to the next call. -/
theorem c6_amended_counter_persists (c : Nat) :
    serializeCall [] noOptions circularRecordHeap 9 c (.vobj 0) =
      .ok (.sobject [("x", .snum 10), ("y", .snum 20), ("circular", .sref c)]
        (some c), c + 1) := by
  simp [serializeCall, doSerialize, serializeObjectLiteral, serializeFieldsWith,
    findAlreadySerialized, classify, isPrimitiveType, isSymbol, isFunction,
    isBuiltInType, isArrayValue, isObjectLiteral, isInstance, typeofIsObject,
    circularRecordHeap, hlookup, objectCtor, primToSer, noOptions,
    assignFirst, patch, patchFields, assignedIdOf, List.find?]

/-- C9 counterexample: decoding a `FunctionNode` with no
`deserializeFunction` hook returns the stored *name string*
(`source.value`), not the original callable: the result is not a
function value at all. -/
theorem c9_counterexample :
    deserializeCall [] noOptions 9 (.sfn "greet") =
      .ok (.vstr "greet", ⟨[], 0, []⟩) ∧
    isFunction (.vstr "greet") = false := by
  refine ⟨by with_unfolding_all rfl, rfl⟩

/-- C9 amended: with no hooks supplied, a `FunctionNode` decodes to
the stored name string, and a `SymbolNode` decodes to a fresh symbol
identity (the decoder's next fresh id) bearing the stored name. -/
theorem c9_amended_function_and_symbol (reg : List RegEntry)
    (opts : SerOptions) (fuel : Nat) (nm : String) (st : DeSt)
    (hf : opts.deserializeFunction = none)
    (hs : opts.deserializeSymbol = none) :
    doDeserialize reg opts (fuel + 1) (.sfn nm) st = .ok (.vstr nm, st) ∧
    doDeserialize reg opts (fuel + 1) (.ssym nm) st =
      .ok (.vsym nm st.next, ⟨st.heap, st.next + 1, st.table⟩) := by
  constructor <;> simp [doDeserialize, hf, hs]

/-- Witness for C9's amended theorem. -/
theorem c9_amended_function_and_symbol_witness :
    doDeserialize [] noOptions 1 (.sfn "greet") ⟨[], 0, []⟩ =
      .ok (.vstr "greet", ⟨[], 0, []⟩) ∧
    doDeserialize [] noOptions 1 (.ssym "x") ⟨[], 0, []⟩ =
      .ok (.vsym "x" 0, ⟨[], 1, []⟩) :=
  c9_amended_function_and_symbol [] noOptions 0 "greet" ⟨[], 0, []⟩ rfl rfl
    |>.imp (fun h => h) (fun _ =>
      (c9_amended_function_and_symbol [] noOptions 0 "x" ⟨[], 0, []⟩ rfl rfl).2)

/-- C10: an object with a null prototype has no `constructor`
property; it fails the object-literal test, classifies as a
constructed instance, matches no registry entry (its prototype chain
is empty, so `instanceof` always fails), and the failure branch then
evaluates `source.constructor.name` on `undefined` — the call aborts
with a TypeError, not the formatted UnregisteredType error. -/
theorem c10_null_proto_property_access (reg : List RegEntry)
    (opts : SerOptions) (h : Heap) (fuel a : Nat)
    (fields : List (String × JSValue)) (st : SerSt)
    (hv : hlookup h a = some (.objectObj none [] fields))
    (hfresh : ∀ p ∈ st.visited, p.1 ≠ a) :
    classify h (.vobj a) = .instanceK ∧
    doSerialize reg opts h (fuel + 2) (.vobj a) st =
      .error (.jsTypeError "Cannot read property name of undefined") := by
  have hcl : classify h (.vobj a) = .instanceK := by
    simp [classify, isPrimitiveType, isSymbol, isFunction, isBuiltInType,
      isArrayValue, isObjectLiteral, isInstance, typeofIsObject, hv]
  have hfind := findAlreadySerialized_none a st hfresh
  refine ⟨hcl, ?_⟩
  have hreg : List.find? (fun e => List.contains ([] : List Nat) e.ctorId) reg
      = none := by
    rw [List.find?_eq_none]
    intro e _
    simp [List.contains]
  simp only [doSerialize, hcl, serializeInstance, hfind, hv, hreg]

/-- Witness for C10 at the concrete null-prototype object. -/
theorem c10_null_proto_property_access_witness :
    classify nullProtoHeap (.vobj 0) = .instanceK ∧
    doSerialize [] noOptions nullProtoHeap 2 (.vobj 0) ⟨[], 0⟩ =
      .error (.jsTypeError "Cannot read property name of undefined") :=
  c10_null_proto_property_access [] noOptions nullProtoHeap 0 0
    [("x", .vnum 1)] ⟨[], 0⟩ (by with_unfolding_all rfl) (by decide)

/-- C8: the classifier is total and respects the cascade's priority
order: for every value, scanning the seven tests in order and taking
the first match yields exactly the kind `classify` assigns (the
unsupported case is unreachable on this value domain: every
non-primitive, non-symbol, non-function value is an object, and an
object failing the literal test satisfies the instance test).
`classify` is a pure function of the value and the heap it lives in. -/
theorem c8_classifier_priority_order (h : Heap) (v : JSValue) :
    firstMatch (classifierTests h) v = some (classify h v) := by
  cases v with
  | vobj a =>
    rcases hh : hlookup h a with _ | o
    · simp [firstMatch, classifierTests, classify, isPrimitiveType, isSymbol,
        isFunction, isBuiltInType, isArrayValue, isObjectLiteral, isInstance,
        typeofIsObject, hh]
    · cases o with
      | objectObj ctor chain fields =>
        cases ctor with
        | none =>
          simp [firstMatch, classifierTests, classify, isPrimitiveType,
            isSymbol, isFunction, isBuiltInType, isArrayValue,
            isObjectLiteral, isInstance, typeofIsObject, hh]
        | some c =>
          by_cases hc : c.cname = "Object"
          · simp [firstMatch, classifierTests, classify, isPrimitiveType,
              isSymbol, isFunction, isBuiltInType, isArrayValue,
              isObjectLiteral, isInstance, typeofIsObject, hh, hc]
          · simp [firstMatch, classifierTests, classify, isPrimitiveType,
              isSymbol, isFunction, isBuiltInType, isArrayValue,
              isObjectLiteral, isInstance, typeofIsObject, hh, hc]
      | _ =>
        simp [firstMatch, classifierTests, classify, isPrimitiveType,
          isSymbol, isFunction, isBuiltInType, isArrayValue, isObjectLiteral,
          isInstance, typeofIsObject, hh]
  | _ =>
    simp [firstMatch, classifierTests, classify, isPrimitiveType, isSymbol,
      isFunction, isBuiltInType, isArrayValue, isObjectLiteral, isInstance,
      typeofIsObject]

end Serialist
